import Mathlib

/-!
Shallow embedding of the zx0-rs compressor core (src/optimize.rs, src/compress.rs,
src/compressor.rs).  Rust machine integers are modelled as `Nat`/`Int`; fallible
operations (panicking array indexing, usize-subtraction underflow, unbounded loops)
are modelled with `Option` at the sites where they can actually fail.  Observable
effects that the claims talk about (progress-callback invocations, emitted bits,
the arena free-list discipline) are recorded in ghost fields (`trace`,
`bitsLog`, `arenaInvOk`) that do not influence any other field.
-/

namespace ZX0

/-- `INITIAL_OFFSET` from src/lib.rs. -/
def INITIAL_OFFSET : ℕ := 1

/-- `MAX_OFFSET_ZX0` from src/lib.rs. -/
def MAX_OFFSET_ZX0 : ℕ := 32640

/-- `MAX_OFFSET_ZX7` from src/lib.rs. -/
def MAX_OFFSET_ZX7 : ℕ := 2176

/-- `offset_ceiling` from src/optimize.rs. -/
def offset_ceiling (index offset_limit : ℕ) : ℕ :=
  if index > offset_limit then offset_limit
  else if index < INITIAL_OFFSET then INITIAL_OFFSET
  else index

/-- Fuelled binary length (kernel-reducible version of `Nat.size`). -/
def bitLenGo : ℕ → ℕ → ℕ
  | 0, _ => 0
  | fuel + 1, n => if n = 0 then 0 else bitLenGo fuel (n / 2) + 1

/-- The binary length of a natural number (number of bits up to and including
the leading one); equals `Nat.size`, see `bitLen_eq_size`. -/
def bitLen (n : ℕ) : ℕ := bitLenGo n n

theorem bitLenGo_eq_size : ∀ fuel n, n ≤ fuel → bitLenGo fuel n = Nat.size n := by
  intro fuel
  induction fuel with
  | zero =>
    intro n h
    have : n = 0 := by omega
    subst this
    rw [Nat.size_zero]
    rfl
  | succ fuel ih =>
    intro n h
    unfold bitLenGo
    split
    · subst ‹n = 0›; rw [Nat.size_zero]
    · rename_i hn
      rw [ih (n / 2) (by omega)]
      conv_rhs => rw [← Nat.bit_decomp n]
      rw [Nat.size_bit (by rw [Nat.bit_decomp]; exact hn)]
      rw [Nat.div2_val]

theorem bitLen_eq_size (n : ℕ) : bitLen n = Nat.size n :=
  bitLenGo_eq_size n n le_rfl

/-- `elias_gamma_bits` from src/optimize.rs: `2 * (u32::BITS - value.leading_zeros() - 1) + 1`.
For `value < 2^32`, `value.leading_zeros() = 32 - bitLen value`. -/
def elias_gamma_bits (value : ℕ) : ℕ :=
  2 * (32 - (32 - bitLen value) - 1) + 1

/-- `Block` from src/optimize.rs. -/
structure Block where
  bits : ℕ
  index : ℤ
  offset : ℕ
  next_index : ℕ
  refcount : ℕ
  deriving Repr, DecidableEq

instance : Inhabited Block := ⟨⟨0, 0, 0, 0, 0⟩⟩

/-- `Allocator` from src/optimize.rs.  The `VecDeque` free list is a `List`
with `push_back = ++ [x]` and `pop_front = head`. -/
structure Allocator where
  free_list : List ℕ
  blocks : List Block
  deriving Repr

/-- `Allocator::new`: one reserved null block at handle 0. -/
def Allocator.new : Allocator :=
  { free_list := [], blocks := [⟨0, 0, 0, 0, 0⟩] }

/-- Bump the refcount of the block at handle `i`. -/
def incRef (blocks : List Block) (i : ℕ) : List Block :=
  blocks.set i { blocks.getD i default with
                   refcount := (blocks.getD i default).refcount + 1 }

/-- Drop the refcount of the block at handle `i`. -/
def decRef (blocks : List Block) (i : ℕ) : List Block :=
  blocks.set i { blocks.getD i default with
                   refcount := (blocks.getD i default).refcount - 1 }

/-- The release half of `Allocator::assign*`: decrement the refcount of the old
value of the slot (if nonzero) and push it on the free list if it reached 0. -/
def releaseOld (blocks : List Block) (free : List ℕ) (old : ℕ) :
    List Block × List ℕ :=
  if old ≠ 0 then
    let blocks := decRef blocks old
    if (blocks.getD old default).refcount = 0 then
      (blocks, free ++ [old])
    else
      (blocks, free)
  else
    (blocks, free)

/-- `Allocator::assign` from src/optimize.rs.  The slot is passed by value
(`old` is the current content of `*ptr`); the returned `ℕ` is the value the
caller stores back into the slot. -/
def Allocator.assign (a : Allocator) (old next_index : ℕ) : Allocator × ℕ :=
  let blocks := incRef a.blocks next_index
  let (blocks, free) := releaseOld blocks a.free_list old
  (⟨free, blocks⟩, next_index)

/-- `Allocator::assign_new` from src/optimize.rs. -/
def Allocator.assign_new (a : Allocator) (old : ℕ) (bits : ℕ) (index : ℤ)
    (offset : ℕ) (next_index : ℕ) : Allocator × ℕ :=
  let blocks := if next_index ≠ 0 then incRef a.blocks next_index else a.blocks
  let (blocks, free) := releaseOld blocks a.free_list old
  let block : Block := ⟨bits, index, offset, next_index, 1⟩
  match free with
  | i :: rest => (⟨rest, blocks.set i block⟩, i)
  | [] => (⟨[], blocks ++ [block]⟩, blocks.length)

/-- `Allocator::get` from src/optimize.rs (total model; all reachable call
sites use in-bounds handles). -/
def Allocator.get (a : Allocator) (i : ℕ) : Block :=
  a.blocks.getD i default

/-- The full optimizer state: the allocator plus the five tables of
src/optimize.rs, and two ghost fields: `trace` records each progress-callback
invocation as the pair of integers whose (f32) quotient is passed to the
callback, and `arenaInvOk` accumulates the arena free-list/refcount check
after every `assign`/`assign_new` call. -/
structure OptState where
  alloc : Allocator
  last_literal : List ℕ
  last_match : List ℕ
  optimal : List ℕ
  match_length : List ℕ
  best_length : List ℕ
  trace : List (ℕ × ℕ)
  arenaInvOk : Bool

/-- The multiplicity of handle `h` among all table slots
(`last_literal`, `last_match`, `optimal`). -/
def OptState.slotCount (s : OptState) (h : ℕ) : ℕ :=
  s.last_literal.count h + s.last_match.count h + s.optimal.count h

/-- Executable check of the arena free-list invariant (the subject of the
spec's invariant section): for every real handle (handle 0 is the reserved
null sentinel), it is on the free list exactly once iff its refcount is 0,
and every non-null handle held in a table slot has refcount ≥ 1. -/
def checkArenaInv (a : Allocator) (slots : List ℕ) : Bool :=
  ((List.range a.blocks.length).all fun h =>
    h == 0 ||
      a.free_list.count h ==
        (if (a.blocks.getD h default).refcount = 0 then 1 else 0)) &&
  (slots.all fun v => v == 0 || decide (1 ≤ (a.blocks.getD v default).refcount))

/-- Record the arena invariant check in the ghost flag (used immediately after
every `assign`/`assign_new` call in the optimizer). -/
def OptState.recordInv (s : OptState) : OptState :=
  { s with arenaInvOk :=
      s.arenaInvOk &&
        checkArenaInv s.alloc (s.last_literal ++ s.last_match ++ s.optimal) }

/-- The `best_length` refinement loop of src/optimize.rs (the inner
`loop { best_length_size += 1; ... }`).  `bls` is `best_length_size`,
`target` is `match_length[offset]`; the loop body is executed while fuel
remains, with the source's own exit test `best_length_size >= match_length[offset]`.
Returns the updated `best_length` table and `best_length_size`. -/
def bestLengthFill (alloc : Allocator) (optimal : List ℕ) (index target : ℕ) :
    ℕ → ℕ → ℕ → List ℕ → List ℕ × ℕ
  | 0, bls, _, bl => (bl, bls)
  | fuel + 1, bls, bits, bl =>
    let bls' := bls + 1
    let bits2 := (alloc.get (optimal.getD (index - bls') 0)).bits +
        elias_gamma_bits (bls' - 1)
    if bits2 ≤ bits then
      let bl' := bl.set bls' bls'
      if bls' ≥ target then (bl', bls')
      else bestLengthFill alloc optimal index target fuel bls' bits2 bl'
    else
      let bl' := bl.set bls' (bl.getD (bls' - 1) 0)
      if bls' ≥ target then (bl', bls')
      else bestLengthFill alloc optimal index target fuel bls' bits bl'

/-- The `if optimal[index] == 0 || get(optimal[index]).bits > bits`
re-pointing of `optimal[index]` that follows each `assign_new` in
src/optimize.rs.  `cand` is the slot value just written (`last_match[offset]`
or `last_literal[offset]`). -/
def updateOptimal (s : OptState) (index bits cand : ℕ) : OptState :=
  if s.optimal.getD index 0 = 0 ∨
      (s.alloc.get (s.optimal.getD index 0)).bits > bits then
    let av := s.alloc.assign (s.optimal.getD index 0) cand
    OptState.recordInv
      { s with alloc := av.1, optimal := s.optimal.set index av.2 }
  else s

/-- The `// Copy from last offset` step of src/optimize.rs. -/
def copyFromLastOffset (index offset : ℕ) (s : OptState) : OptState :=
  if s.last_literal.getD offset 0 ≠ 0 then
    let length : ℤ :=
      (index : ℤ) - (s.alloc.get (s.last_literal.getD offset 0)).index
    let bits := (s.alloc.get (s.last_literal.getD offset 0)).bits + 1 +
        elias_gamma_bits length.toNat
    let av := s.alloc.assign_new (s.last_match.getD offset 0) bits (index : ℤ)
        offset (s.last_literal.getD offset 0)
    let s1 := OptState.recordInv
      { s with alloc := av.1, last_match := s.last_match.set offset av.2 }
    updateOptimal s1 index bits (s1.last_match.getD offset 0)
  else s

/-- The tail of the `// Copy from new offset` step of src/optimize.rs, after
the `best_length` refinement loop has run. -/
def copyFromNewOffsetCore (index offset : ℕ) (s : OptState) (bls : ℕ) :
    OptState × ℕ :=
  let length := s.best_length.getD (s.match_length.getD offset 0) 0
  let bits := (s.alloc.get (s.optimal.getD (index - length) 0)).bits + 8 +
      elias_gamma_bits ((offset - 1) / 128 + 1) + elias_gamma_bits (length - 1)
  if s.last_match.getD offset 0 = 0 ∨
      (s.alloc.get (s.last_match.getD offset 0)).index ≠ (index : ℤ) ∨
      (s.alloc.get (s.last_match.getD offset 0)).bits > bits then
    let av := s.alloc.assign_new (s.last_match.getD offset 0) bits (index : ℤ)
        offset (s.optimal.getD (index - length) 0)
    let s1 := OptState.recordInv
      { s with alloc := av.1, last_match := s.last_match.set offset av.2 }
    (updateOptimal s1 index bits (s1.last_match.getD offset 0), bls)
  else (s, bls)

/-- The `// Copy from new offset` step of src/optimize.rs (entered once
`match_length[offset]` has been incremented above 1): run the `best_length`
refinement loop if needed, then the match-creation tail. -/
def copyFromNewOffset (index offset : ℕ) (s : OptState) (bls : ℕ) :
    OptState × ℕ :=
  let blb :=
    if bls < s.match_length.getD offset 0 then
      let bits0 :=
        (s.alloc.get (s.optimal.getD (index - s.best_length.getD bls 0) 0)).bits +
          elias_gamma_bits (s.best_length.getD bls 0 - 1)
      bestLengthFill s.alloc s.optimal index (s.match_length.getD offset 0)
        (s.match_length.getD offset 0) bls bits0 s.best_length
    else (s.best_length, bls)
  copyFromNewOffsetCore index offset { s with best_length := blb.1 } blb.2

/-- The `// Copy literals` step of src/optimize.rs. -/
def copyLiterals (index offset : ℕ) (s : OptState) : OptState :=
  if s.last_match.getD offset 0 ≠ 0 then
    let length : ℤ :=
      (index : ℤ) - (s.alloc.get (s.last_match.getD offset 0)).index
    let bits := (s.alloc.get (s.last_match.getD offset 0)).bits + 1 +
        elias_gamma_bits length.toNat + length.toNat * 8
    let av := s.alloc.assign_new (s.last_literal.getD offset 0) bits (index : ℤ)
        0 (s.last_match.getD offset 0)
    let s1 := OptState.recordInv
      { s with alloc := av.1, last_literal := s.last_literal.set offset av.2 }
    updateOptimal s1 index bits (s1.last_literal.getD offset 0)
  else s

/-- The matching branch of the inner loop body: `copyFromLastOffset`, then
increment `match_length[offset]` and, if it exceeds 1, `copyFromNewOffset`. -/
def processOffsetMatch (index offset : ℕ) (s : OptState) (bls : ℕ) :
    OptState × ℕ :=
  let s := copyFromLastOffset index offset s
  let s := { s with
    match_length := s.match_length.set offset (s.match_length.getD offset 0 + 1) }
  if s.match_length.getD offset 0 > 1 then
    copyFromNewOffset index offset s bls
  else (s, bls)

/-- The non-matching branch of the inner loop body: reset
`match_length[offset]` and `copyLiterals`. -/
def processOffsetNoMatch (index offset : ℕ) (s : OptState) (bls : ℕ) :
    OptState × ℕ :=
  let s := { s with match_length := s.match_length.set offset 0 }
  (copyLiterals index offset s, bls)

/-- The body of the inner `for offset in 1..=max_offset` loop of
src/optimize.rs, acting on the state together with the per-index local
`best_length_size`. -/
def processOffset (input : List ℕ) (skip index : ℕ) (sb : OptState × ℕ)
    (offset : ℕ) : OptState × ℕ :=
  if index ≥ offset ∧ index ≠ skip ∧
      input.getD index 0 = input.getD (index - offset) 0 then
    processOffsetMatch index offset sb.1 sb.2
  else
    processOffsetNoMatch index offset sb.1 sb.2

/-- One iteration of the outer `for index in skip..input.len()` loop of
src/optimize.rs: record the progress-callback invocation (every 128th index),
then fold the inner offset loop with `best_length_size` starting at 2. -/
def outerStep (input : List ℕ) (skip offset_limit : ℕ) (s : OptState)
    (index : ℕ) : OptState :=
  let s :=
    if index % 128 = 0 then
      { s with trace := s.trace ++ [(index, input.length - skip)] }
    else s
  let max_offset := offset_ceiling index offset_limit
  (((List.range' 1 max_offset).foldl (processOffset input skip index) (s, 2))).1

/-- The outer loop of `optimize`. -/
def optLoop (input : List ℕ) (skip offset_limit : ℕ) (s : OptState) :
    List ℕ → OptState
  | [] => s
  | index :: rest => optLoop input skip offset_limit
      (outerStep input skip offset_limit s index) rest

/-- The table allocation and fake-root-block setup at the head of `optimize`
(src/optimize.rs lines 114-136). -/
def optInit (input : List ℕ) (skip offset_limit : ℕ) : OptState :=
  let max_offset := offset_ceiling (input.length - 1) offset_limit
  let s0 : OptState :=
    { alloc := Allocator.new
      last_literal := List.replicate (max_offset + 1) 0
      last_match := List.replicate (max_offset + 1) 0
      optimal := List.replicate input.length 0
      match_length := List.replicate (max_offset + 1) 0
      best_length := List.replicate input.length 0
      trace := []
      arenaInvOk := true }
  let s0 :=
    if input.length > 2 then { s0 with best_length := s0.best_length.set 2 2 }
    else s0
  -- Start with fake block
  let av := s0.alloc.assign_new (s0.last_match.getD INITIAL_OFFSET 0) 0
      ((skip : ℤ) - 1) INITIAL_OFFSET 0
  OptState.recordInv
    { s0 with alloc := av.1, last_match := s0.last_match.set INITIAL_OFFSET av.2 }

/-- `optimize` from src/optimize.rs.  Returns `none` for empty input: there
`input.len() - 1` underflows (a panic in a debug build) and the final
`optimal[input.len() - 1]` read is out of bounds (a panic in any build).
The second component of the result is the terminal handle. -/
def optimize (input : List ℕ) (skip offset_limit : ℕ) :
    Option (OptState × ℕ) :=
  if input.length = 0 then none
  else
    let s2 := optLoop input skip offset_limit (optInit input skip offset_limit)
      (List.range' skip (input.length - skip))
    (s2.optimal.get? (input.length - 1)).map fun h => (s2, h)

/-! ## src/compress.rs -/

/-- `Block` from src/compress.rs (`bits: u32`, `index: isize`, `offset: usize`). -/
structure CBlock where
  bits : ℕ
  index : ℤ
  offset : ℕ
  deriving Repr, DecidableEq

/-- `Context` from src/compress.rs, with a ghost `bitsLog` recording the value
of every successful `write_bit` call. -/
structure Context where
  backtrack : Bool
  bit_mask : ℕ
  bit_index : ℕ
  input_index : ℕ
  output : List ℕ
  output_index : ℕ
  diff : ℤ
  bitsLog : List ℕ

/-- `Context::read_bytes` from src/compress.rs (also updates `delta`). -/
def read_bytes (c : Context) (n delta : ℕ) : Context × ℕ :=
  let c := { c with input_index := c.input_index + n, diff := c.diff + n }
  if (delta : ℤ) < c.diff then (c, c.diff.toNat) else (c, delta)

/-- `Context::write_byte` from src/compress.rs.  `none` models the panic of the
out-of-bounds `self.output[self.output_index] = value`. -/
def write_byte (c : Context) (value : ℕ) : Option Context :=
  if c.output_index < c.output.length then
    some { c with output := c.output.set c.output_index value,
                  output_index := c.output_index + 1,
                  diff := c.diff - 1 }
  else none

/-- `Context::write_bit` from src/compress.rs.  `none` models the panics of
`self.output[self.output_index - 1]` (underflow at `output_index = 0`, or an
out-of-bounds read) and of the carrier-byte accesses. -/
def write_bit (c : Context) (value : ℕ) : Option Context :=
  if c.backtrack then
    if value ≠ 0 then
      match c.output_index with
      | 0 => none
      | oi + 1 =>
        if oi < c.output.length then
          some { c with output := c.output.set oi ((c.output.getD oi 0) ||| 1),
                        backtrack := false, bitsLog := c.bitsLog ++ [value] }
        else none
    else
      some { c with backtrack := false, bitsLog := c.bitsLog ++ [value] }
  else
    let step : Option Context :=
      if c.bit_mask = 0 then
        write_byte { c with bit_mask := 128, bit_index := c.output_index } 0
      else some c
    match step with
    | none => none
    | some c =>
      let step2 : Option Context :=
        if value ≠ 0 then
          if c.bit_index < c.output.length then
            some { c with
              output := c.output.set c.bit_index
                ((c.output.getD c.bit_index 0) ||| c.bit_mask) }
          else none
        else some c
      match step2 with
      | none => none
      | some c =>
        some { c with bit_mask := c.bit_mask >>> 1, bitsLog := c.bitsLog ++ [value] }

/-- The `while i <= value { i <<= 1 }` loop at the head of
`Context::write_interlaced_elias_gamma` (fuelled; the fuel `value + 2` always
suffices since `i` doubles from 2). -/
def igStartGo (value : ℕ) : ℕ → ℕ → ℕ
  | 0, i => i
  | fuel + 1, i => if i ≤ value then igStartGo value fuel (i <<< 1) else i

/-- The value of `i` after the head loop of `write_interlaced_elias_gamma`
(starting from `i = 2`). -/
def igStart (value : ℕ) : ℕ :=
  igStartGo value (value + 2) 2

/-- The main `loop { i >>= 1; ... }` of `Context::write_interlaced_elias_gamma`:
emit a continuation bit and a (possibly inverted) data bit for each mask
`i/2, i/4, ..., 1` (fuelled; `i` halves every iteration). -/
def igEmit (backwards_mode invert_mode : Bool) (value : ℕ) :
    ℕ → ℕ → Context → Option Context
  | 0, _, c => some c
  | fuel + 1, i, c =>
    let i := i >>> 1
    if i = 0 then some c
    else
      match write_bit c (if backwards_mode then 1 else 0) with
      | none => none
      | some c =>
        match write_bit c
            (if invert_mode then
              (if value &&& i ≠ 0 then 0 else 1)
            else
              (if value &&& i ≠ 0 then 1 else 0)) with
        | none => none
        | some c => igEmit backwards_mode invert_mode value fuel i c

/-- `Context::write_interlaced_elias_gamma` from src/compress.rs. -/
def write_interlaced_elias_gamma (c : Context) (value : ℕ)
    (backwards_mode invert_mode : Bool) : Option Context :=
  let i := igStart value
  let i := i >>> 1
  match igEmit backwards_mode invert_mode value (i + 1) i c with
  | none => none
  | some c => write_bit c (if !backwards_mode then 1 else 0)

/-- The offset-LSB byte written in the `// Copy from new offset LSB` branch of
`compress` (src/compress.rs lines 176-180), including the `as u8` truncation. -/
def newOffsetLsb (backwards_mode : Bool) (offset : ℕ) : ℕ :=
  if backwards_mode then (((offset - 1) % 128) <<< 1) % 256
  else ((127 - (offset - 1) % 128) <<< 1) % 256

/-- The `// Copy literals values` loop of `compress`: for each of `length`
bytes, read `input[input_index]` (checked), `write_byte` it, and advance via
`read_bytes(1, delta)`. -/
def literalCopy (input : List ℕ) : ℕ → Context × ℕ → Option (Context × ℕ)
  | 0, cd => some cd
  | n + 1, (c, delta) =>
    match input.get? c.input_index with
    | none => none
    | some byte =>
      match write_byte c byte with
      | none => none
      | some c => literalCopy input n (read_bytes c 1 delta)

/-- One iteration of the `for (previous_block, current_block) in chain.windows(2)`
loop of `compress`.  The state is (context, delta, last_offset). -/
def emitToken (input : List ℕ) (backwards_mode invert_mode : Bool)
    (prev cur : CBlock) (st : Context × ℕ × ℕ) : Option (Context × ℕ × ℕ) :=
  let length := (cur.index - prev.index).toNat
  if cur.offset = 0 then
    (write_bit st.1 0).bind fun c =>
      (write_interlaced_elias_gamma c length backwards_mode false).bind fun c =>
        (literalCopy input length (c, st.2.1)).bind fun cd =>
          some (cd.1, cd.2, st.2.2)
  else if cur.offset = st.2.2 then
    (write_bit st.1 0).bind fun c =>
      (write_interlaced_elias_gamma c length backwards_mode false).bind fun c =>
        let cd := read_bytes c length st.2.1
        some (cd.1, cd.2, st.2.2)
  else
    (write_bit st.1 1).bind fun c =>
      (write_interlaced_elias_gamma c ((cur.offset - 1) / 128 + 1)
          backwards_mode invert_mode).bind fun c =>
        (write_byte c (newOffsetLsb backwards_mode cur.offset)).bind fun c =>
          (write_interlaced_elias_gamma { c with backtrack := true } (length - 1)
              backwards_mode false).bind fun c =>
            let cd := read_bytes c length st.2.1
            some (cd.1, cd.2, cur.offset)

/-- The pairwise walk over the un-reversed chain. -/
def emitLoop (input : List ℕ) (backwards_mode invert_mode : Bool) :
    CBlock → List CBlock → Context × ℕ × ℕ → Option (Context × ℕ × ℕ)
  | _, [], st => some st
  | prev, cur :: rest, st =>
    match emitToken input backwards_mode invert_mode prev cur st with
    | none => none
    | some st => emitLoop input backwards_mode invert_mode cur rest st

/-- `compress` from src/compress.rs.  `chain` is in the order produced by the
chain walk in src/compressor.rs (terminal first); `chain[0]` is the terminal
block.  Returns the output bytes, the final `delta`, and the ghost bit log. -/
def compress (chain : List CBlock) (input : List ℕ) (skip : ℕ)
    (backwards_mode invert_mode : Bool) : Option (List ℕ × ℕ × List ℕ) :=
  chain.head?.bind fun c0 =>
    let output_size := (c0.bits + 25) / 8
    let ctx0 : Context :=
      { backtrack := true, bit_mask := 0, bit_index := 0, input_index := skip,
        output := List.replicate output_size 0, output_index := 0,
        diff := (output_size : ℤ) - (input.length : ℤ) + (skip : ℤ),
        bitsLog := [] }
    (match chain.reverse with
      | [] => none
      | first :: rest =>
        emitLoop input backwards_mode invert_mode first rest
          (ctx0, 0, INITIAL_OFFSET)).bind fun st =>
      (write_bit st.1 1).bind fun c =>
        (write_interlaced_elias_gamma c 256 backwards_mode invert_mode).bind fun c =>
          some (c.output, st.2.1, c.bitsLog)

/-! ## src/compressor.rs -/

/-- The compressor configuration (the builder fields of `Compressor`,
minus the progress callback whose invocations are recorded in
`OptState.trace`). -/
structure Settings where
  skip : ℕ
  quick_mode : Bool
  backwards_mode : Bool
  classic_mode : Bool
  deriving Repr, DecidableEq

/-- The default `Compressor::new()` configuration. -/
def Settings.default : Settings :=
  ⟨0, false, false, false⟩

/-- `invert_mode` as derived in `Compressor::compress`
(src/compressor.rs line 160). -/
def invertMode (classic_mode backwards_mode : Bool) : Bool :=
  !classic_mode && !backwards_mode

/-- The `while optimal != 0` predecessor walk of `Compressor::compress`
(fuelled; `none` models the walk not terminating within `fuel` steps). -/
def buildChain (a : Allocator) : ℕ → ℕ → Option (List CBlock)
  | 0, h => if h = 0 then some [] else none
  | fuel + 1, h =>
    if h = 0 then some []
    else
      let b := a.get h
      match buildChain a fuel b.next_index with
      | none => none
      | some rest => some (⟨b.bits, b.index, b.offset⟩ :: rest)

/-- The observable result of one compression call. -/
structure PipelineResult where
  output : List ℕ
  delta : ℕ
  trace : List (ℕ × ℕ)
  chain : List CBlock
  arenaInvOk : Bool
  bitsLog : List ℕ

/-- `Compressor::compress` from src/compressor.rs: run `optimize`, walk the
predecessor chain (with fuel `input.length + 2`, enough for any chain of
strictly decreasing block indices), then `compress`. -/
def compressorCompress (st : Settings) (input : List ℕ) :
    Option PipelineResult :=
  (optimize input st.skip
      (if st.quick_mode then MAX_OFFSET_ZX7 else MAX_OFFSET_ZX0)).bind fun ost =>
    (buildChain ost.1.alloc (input.length + 2) ost.2).bind fun chain =>
      (compress chain input st.skip st.backwards_mode
          (invertMode st.classic_mode st.backwards_mode)).bind fun odl =>
        some ⟨odl.1, odl.2.1, ost.1.trace, chain, ost.1.arenaInvOk, odl.2.2⟩

/-! ## Field-preservation lemmas for the optimizer loop -/

@[simp]
theorem trace_recordInv (s : OptState) : s.recordInv.trace = s.trace := rfl

@[simp]
theorem optimal_recordInv (s : OptState) : s.recordInv.optimal = s.optimal := rfl

@[simp]
theorem trace_updateOptimal (s : OptState) (i b c : ℕ) :
    (updateOptimal s i b c).trace = s.trace := by
  unfold updateOptimal; split <;> rfl

@[simp]
theorem optimal_length_updateOptimal (s : OptState) (i b c : ℕ) :
    (updateOptimal s i b c).optimal.length = s.optimal.length := by
  unfold updateOptimal; split <;> simp [OptState.recordInv]

@[simp]
theorem trace_copyFromLastOffset (i o : ℕ) (s : OptState) :
    (copyFromLastOffset i o s).trace = s.trace := by
  unfold copyFromLastOffset; split <;> simp

@[simp]
theorem optimal_length_copyFromLastOffset (i o : ℕ) (s : OptState) :
    (copyFromLastOffset i o s).optimal.length = s.optimal.length := by
  unfold copyFromLastOffset; split <;> simp

@[simp]
theorem trace_copyFromNewOffsetCore (i o : ℕ) (s : OptState) (bls : ℕ) :
    (copyFromNewOffsetCore i o s bls).1.trace = s.trace := by
  unfold copyFromNewOffsetCore; dsimp only; split <;> simp

@[simp]
theorem optimal_length_copyFromNewOffsetCore (i o : ℕ) (s : OptState) (bls : ℕ) :
    (copyFromNewOffsetCore i o s bls).1.optimal.length = s.optimal.length := by
  unfold copyFromNewOffsetCore; dsimp only; split <;> simp

@[simp]
theorem trace_copyFromNewOffset (i o : ℕ) (s : OptState) (bls : ℕ) :
    (copyFromNewOffset i o s bls).1.trace = s.trace := by
  unfold copyFromNewOffset
  rw [trace_copyFromNewOffsetCore]

@[simp]
theorem optimal_length_copyFromNewOffset (i o : ℕ) (s : OptState) (bls : ℕ) :
    (copyFromNewOffset i o s bls).1.optimal.length = s.optimal.length := by
  unfold copyFromNewOffset
  rw [optimal_length_copyFromNewOffsetCore]

@[simp]
theorem trace_copyLiterals (i o : ℕ) (s : OptState) :
    (copyLiterals i o s).trace = s.trace := by
  unfold copyLiterals; split <;> simp

@[simp]
theorem optimal_length_copyLiterals (i o : ℕ) (s : OptState) :
    (copyLiterals i o s).optimal.length = s.optimal.length := by
  unfold copyLiterals; split <;> simp

@[simp]
theorem trace_processOffsetMatch (i o : ℕ) (s : OptState) (bls : ℕ) :
    (processOffsetMatch i o s bls).1.trace = s.trace := by
  unfold processOffsetMatch; dsimp only; split <;> simp

@[simp]
theorem optimal_length_processOffsetMatch (i o : ℕ) (s : OptState) (bls : ℕ) :
    (processOffsetMatch i o s bls).1.optimal.length = s.optimal.length := by
  unfold processOffsetMatch; dsimp only; split <;> simp

@[simp]
theorem trace_processOffsetNoMatch (i o : ℕ) (s : OptState) (bls : ℕ) :
    (processOffsetNoMatch i o s bls).1.trace = s.trace := by
  unfold processOffsetNoMatch; simp

@[simp]
theorem optimal_length_processOffsetNoMatch (i o : ℕ) (s : OptState) (bls : ℕ) :
    (processOffsetNoMatch i o s bls).1.optimal.length = s.optimal.length := by
  unfold processOffsetNoMatch; simp

@[simp]
theorem trace_processOffset (input : List ℕ) (skip index : ℕ)
    (sb : OptState × ℕ) (offset : ℕ) :
    (processOffset input skip index sb offset).1.trace = sb.1.trace := by
  unfold processOffset; split <;> simp

@[simp]
theorem optimal_length_processOffset (input : List ℕ) (skip index : ℕ)
    (sb : OptState × ℕ) (offset : ℕ) :
    (processOffset input skip index sb offset).1.optimal.length =
      sb.1.optimal.length := by
  unfold processOffset; split <;> simp

theorem trace_foldl_processOffset (input : List ℕ) (skip index : ℕ)
    (l : List ℕ) (sb : OptState × ℕ) :
    ((l.foldl (processOffset input skip index) sb)).1.trace = sb.1.trace := by
  induction l generalizing sb with
  | nil => rfl
  | cons o l ih => simpa using ih (processOffset input skip index sb o)

theorem optimal_length_foldl_processOffset (input : List ℕ) (skip index : ℕ)
    (l : List ℕ) (sb : OptState × ℕ) :
    ((l.foldl (processOffset input skip index) sb)).1.optimal.length =
      sb.1.optimal.length := by
  induction l generalizing sb with
  | nil => rfl
  | cons o l ih => simpa using ih (processOffset input skip index sb o)

theorem trace_outerStep (input : List ℕ) (skip ol : ℕ) (s : OptState)
    (index : ℕ) :
    (outerStep input skip ol s index).trace =
      s.trace ++ (if index % 128 = 0 then [(index, input.length - skip)] else []) := by
  unfold outerStep
  rw [trace_foldl_processOffset]
  split <;> simp

theorem optimal_length_outerStep (input : List ℕ) (skip ol : ℕ) (s : OptState)
    (index : ℕ) :
    (outerStep input skip ol s index).optimal.length = s.optimal.length := by
  unfold outerStep
  rw [optimal_length_foldl_processOffset]
  split <;> simp

theorem trace_optLoop (input : List ℕ) (skip ol : ℕ) (s : OptState)
    (l : List ℕ) :
    (optLoop input skip ol s l).trace =
      s.trace ++ (l.filter (fun i => i % 128 = 0)).map
        (fun i => (i, input.length - skip)) := by
  induction l generalizing s with
  | nil => simp [optLoop]
  | cons i l ih =>
    rw [optLoop, ih, trace_outerStep]
    by_cases h : i % 128 = 0 <;> simp [h, List.filter_cons]

theorem optimal_length_optLoop (input : List ℕ) (skip ol : ℕ) (s : OptState)
    (l : List ℕ) :
    (optLoop input skip ol s l).optimal.length = s.optimal.length := by
  induction l generalizing s with
  | nil => rfl
  | cons i l ih => rw [optLoop, ih, optimal_length_outerStep]

@[simp]
theorem trace_optInit (input : List ℕ) (skip ol : ℕ) :
    (optInit input skip ol).trace = [] := by
  unfold optInit
  split <;> rfl

@[simp]
theorem optimal_length_optInit (input : List ℕ) (skip ol : ℕ) :
    (optInit input skip ol).optimal.length = input.length := by
  unfold optInit
  split <;> simp [OptState.recordInv]

/-- For nonempty input, `optimize` succeeds, and its progress trace is exactly
one callback per outer-loop index divisible by 128, with argument pair
`(index, input.len() - skip)` — i.e. the callback receives
`index / (input.len() - skip)`, not `(index - skip) / (input.len() - skip)`. -/
theorem optimize_trace (input : List ℕ) (skip limit : ℕ)
    (h : 0 < input.length) :
    ∃ st t, optimize input skip limit = some (st, t) ∧
      st.trace = ((List.range' skip (input.length - skip)).filter
        (fun i => i % 128 = 0)).map (fun i => (i, input.length - skip)) := by
  unfold optimize
  rw [if_neg (by omega)]
  have hlen : (optLoop input skip limit (optInit input skip limit)
      (List.range' skip (input.length - skip))).optimal.length = input.length := by
    rw [optimal_length_optLoop, optimal_length_optInit]
  cases hv : (optLoop input skip limit (optInit input skip limit)
      (List.range' skip (input.length - skip))).optimal.get?
        (input.length - 1) with
  | none =>
    rw [List.get?_eq_none] at hv
    omega
  | some v =>
    refine ⟨optLoop input skip limit (optInit input skip limit)
      (List.range' skip (input.length - skip)), v, ?_, ?_⟩
    · simp only [List.get?_eq_getElem?] at hv
      simp [hv]
    · rw [trace_optLoop, trace_optInit]
      rfl

/-! ## Success characterizations of the bit-writer operations -/

theorem write_byte_some {c c' : Context} {v : ℕ} (h : write_byte c v = some c') :
    c' = { c with output := c.output.set c.output_index v,
                  output_index := c.output_index + 1,
                  diff := c.diff - 1 } ∧
      c.output_index < c.output.length := by
  unfold write_byte at h
  split at h
  · exact ⟨(Option.some.inj h).symm, by assumption⟩
  · cases h

theorem length_write_byte {c c' : Context} {v : ℕ}
    (h : write_byte c v = some c') : c'.output.length = c.output.length := by
  rw [(write_byte_some h).1]
  simp

theorem bitsLog_write_byte {c c' : Context} {v : ℕ}
    (h : write_byte c v = some c') : c'.bitsLog = c.bitsLog := by
  rw [(write_byte_some h).1]

theorem length_write_bit {c c' : Context} {v : ℕ}
    (h : write_bit c v = some c') :
    c'.output.length = c.output.length ∧ c'.bitsLog = c.bitsLog ++ [v] := by
  unfold write_bit at h
  split at h
  · split at h
    · split at h
      · cases h
      · split at h
        · cases h; simp
        · cases h
    · cases h; simp
  · dsimp only at h
    split at h
    · cases h
    case h_2 c1 heq1 =>
      split at h
      · cases h
      case h_2 c2 heq2 =>
        cases h
        have h1 : c1.output.length = c.output.length ∧ c1.bitsLog = c.bitsLog := by
          revert heq1
          split
          · intro heq1
            exact ⟨(length_write_byte heq1).trans rfl, (bitsLog_write_byte heq1).trans rfl⟩
          · intro heq1
            cases heq1; exact ⟨rfl, rfl⟩
        have h2 : c2.output.length = c1.output.length ∧ c2.bitsLog = c1.bitsLog := by
          revert heq2
          split
          · split
            · intro heq2; cases heq2; simp
            · intro heq2; cases heq2
          · intro heq2; cases heq2; exact ⟨rfl, rfl⟩
        simp [h1.1, h1.2, h2.1, h2.2]

theorem length_igEmit {bw inv : Bool} {v : ℕ} :
    ∀ {fuel i : ℕ} {c c' : Context}, igEmit bw inv v fuel i c = some c' →
      c'.output.length = c.output.length := by
  intro fuel
  induction fuel with
  | zero => intro i c c' h; cases h; rfl
  | succ fuel ih =>
    intro i c c' h
    unfold igEmit at h
    dsimp only at h
    split at h
    · cases h; rfl
    · split at h
      · cases h
      case h_2 c1 heq1 =>
        split at h
        · cases h
        case h_2 c2 heq2 =>
          rw [ih h, (length_write_bit heq2).1, (length_write_bit heq1).1]

theorem length_write_ieg {c c' : Context} {v : ℕ} {bw inv : Bool}
    (h : write_interlaced_elias_gamma c v bw inv = some c') :
    c'.output.length = c.output.length := by
  unfold write_interlaced_elias_gamma at h
  dsimp only at h
  cases heq1 : igEmit bw inv v (igStart v >>> 1 + 1) (igStart v >>> 1) c with
  | none => rw [heq1] at h; cases h
  | some c1 =>
    rw [heq1] at h
    rw [(length_write_bit h).1, length_igEmit heq1]

theorem output_read_bytes (c : Context) (n delta : ℕ) :
    (read_bytes c n delta).1.output = c.output := by
  unfold read_bytes
  dsimp only
  split <;> rfl

theorem length_literalCopy {input : List ℕ} :
    ∀ {n : ℕ} {cd : Context × ℕ} {cd' : Context × ℕ},
      literalCopy input n cd = some cd' →
      cd'.1.output.length = cd.1.output.length := by
  intro n
  induction n with
  | zero => intro cd cd' h; cases h; rfl
  | succ n ih =>
    intro cd cd' h
    obtain ⟨c, delta⟩ := cd
    unfold literalCopy at h
    split at h
    · cases h
    case h_2 byte heq =>
      split at h
      · cases h
      case h_2 c1 heq1 =>
        rw [ih h]
        have : (read_bytes c1 1 delta).1.output = c1.output := output_read_bytes ..
        simp only [this, length_write_byte heq1]

theorem length_emitToken {input : List ℕ} {bw inv : Bool} {prev cur : CBlock}
    {st st' : Context × ℕ × ℕ} (h : emitToken input bw inv prev cur st = some st') :
    st'.1.output.length = st.1.output.length := by
  unfold emitToken at h
  dsimp only at h
  split at h
  · simp only [Option.bind_eq_some] at h
    obtain ⟨c1, heq1, c2, heq2, cd, heq3, h⟩ := h
    cases h
    dsimp only
    rw [length_literalCopy heq3]
    dsimp only
    rw [length_write_ieg heq2, (length_write_bit heq1).1]
  · split at h
    · simp only [Option.bind_eq_some] at h
      obtain ⟨c1, heq1, c2, heq2, h⟩ := h
      cases h
      dsimp only
      rw [show (read_bytes c2 (cur.index - prev.index).toNat st.2.1).1.output
          = c2.output from output_read_bytes ..]
      rw [length_write_ieg heq2, (length_write_bit heq1).1]
    · simp only [Option.bind_eq_some] at h
      obtain ⟨c1, heq1, c2, heq2, c3, heq3, c4, heq4, h⟩ := h
      cases h
      dsimp only
      rw [show (read_bytes c4 (cur.index - prev.index).toNat st.2.1).1.output
          = c4.output from output_read_bytes ..]
      rw [length_write_ieg heq4]
      dsimp only
      rw [length_write_byte heq3, length_write_ieg heq2,
        (length_write_bit heq1).1]

theorem length_emitLoop {input : List ℕ} {bw inv : Bool} :
    ∀ {rest : List CBlock} {prev : CBlock} {st st' : Context × ℕ × ℕ},
      emitLoop input bw inv prev rest st = some st' →
      st'.1.output.length = st.1.output.length := by
  intro rest
  induction rest with
  | nil => intro prev st st' h; cases h; rfl
  | cons cur rest ih =>
    intro prev st st' h
    unfold emitLoop at h
    split at h
    · cases h
    case h_2 st1 heq1 =>
      rw [ih h, length_emitToken heq1]

/-- `compress` never grows or shrinks its output vector: the returned byte
vector is exactly the initially allocated buffer of
`(chain[0].bits + 25) / 8` bytes (floor division, as in the source). -/
theorem compress_output_length {chain : List CBlock} {input : List ℕ}
    {skip : ℕ} {bw inv : Bool} {out : List ℕ} {delta : ℕ} {log : List ℕ}
    (h : compress chain input skip bw inv = some (out, delta, log)) :
    ∃ c0, chain.head? = some c0 ∧ out.length = (c0.bits + 25) / 8 := by
  unfold compress at h
  simp only [Option.bind_eq_some] at h
  obtain ⟨c0, heq0, st1, heq1, c2, heq2, c3, heq3, h⟩ := h
  refine ⟨c0, heq0, ?_⟩
  cases h
  rw [length_write_ieg heq3, (length_write_bit heq2).1]
  revert heq1
  split
  · intro heq1; cases heq1
  · intro heq1
    rw [length_emitLoop heq1]
    simp

/-! ## Claim theorems -/

set_option maxRecDepth 4000 in
/-- C1 (counterexample): on the single-byte input `[0]` with default settings,
the terminal block of the optimal parse has `bits = 10`, and `compress`
returns an output vector of length `(10 + 25) / 8 = 4` — not the ceiling
`⌈(10 + 25) / 8⌉ = 5` the claim asserts. -/
theorem c1_counterexample :
    (compressorCompress Settings.default [0]).map
        (fun r => (r.output.length, r.chain.map CBlock.bits)) =
      some (4, [10, 0]) ∧
    (4 : ℕ) ≠ (10 + 25 + 7) / 8 := by
  constructor
  · rfl
  · decide

/-- C1 (amended): for every compression that returns, the output vector's
length is the **floor** of `(terminal.bits + 25) / 8` (Rust `u32` division
truncates), where the terminal block is the first element of the chain handed
to `compress`. -/
theorem c1_output_size (st : Settings) (input : List ℕ) (r : PipelineResult)
    (h : compressorCompress st input = some r) :
    ∃ c0, r.chain.head? = some c0 ∧ r.output.length = (c0.bits + 25) / 8 := by
  unfold compressorCompress at h
  simp only [Option.bind_eq_some] at h
  obtain ⟨ost, hopt, chain, hchain, odl, hcomp, h⟩ := h
  obtain ⟨out, delta, log⟩ := odl
  cases h
  exact compress_output_length hcomp

set_option maxRecDepth 4000 in
theorem c1_output_size_witness :
    ∃ c0, ((compressorCompress Settings.default [0]).get (by decide)).chain.head? =
        some c0 ∧
      ((compressorCompress Settings.default [0]).get (by decide)).output.length =
        (c0.bits + 25) / 8 :=
  c1_output_size Settings.default [0] _ (Option.some_get _).symm

/-- C2 (code bug): with 130 input bytes and `skip = 100`, the progress
callback is invoked exactly once, at `index = 128`, and receives
`128 / (130 - 100) = 128/30 ≈ 4.27` — a value greater than 1, and different
from the claimed `(index - skip) / (input.len() - skip) = 28/30`.  The code
divides `index` (not `index - skip`) by `input.len() - skip`, contradicting
both the claim and the crate's own documentation that the callback argument
lies between 0.0 and 1.0. -/
theorem c2_progress_code_bug :
    (∃ st t, optimize (List.replicate 130 0) 100 MAX_OFFSET_ZX0 = some (st, t) ∧
      st.trace = [(128, 30)]) ∧
    1 < (128 : ℚ) / 30 ∧ (128 : ℚ) / 30 ≠ ((128 : ℚ) - 100) / 30 := by
  refine ⟨?_, by norm_num, by norm_num⟩
  obtain ⟨st, t, h1, h2⟩ :=
    optimize_trace (List.replicate 130 0) 100 MAX_OFFSET_ZX0 (by simp)
  refine ⟨st, t, h1, ?_⟩
  rw [h2]
  simp only [List.length_replicate]
  decide

/-- C3 (counterexample): compressing an **empty** input does crash.  In
`optimize`, `input.len() - 1` underflows `usize` (panic in a debug build) and
`optimal[input.len() - 1]` is out of bounds (panic in any build); the model
returns `none` for exactly these panics. -/
theorem c3_counterexample_empty :
    optimize ([] : List ℕ) 0 MAX_OFFSET_ZX0 = none ∧
    compressorCompress Settings.default [] = none :=
  ⟨rfl, rfl⟩

/-- C7: compression is deterministic — a pure function of the input bytes and
the four settings.  Any two compressions with componentwise-equal settings
return identical results (same output bytes and same delta). -/
theorem c7_deterministic (input : List ℕ) (s1 s2 : Settings)
    (hskip : s1.skip = s2.skip) (hq : s1.quick_mode = s2.quick_mode)
    (hb : s1.backwards_mode = s2.backwards_mode)
    (hc : s1.classic_mode = s2.classic_mode) :
    compressorCompress s1 input = compressorCompress s2 input := by
  cases s1
  cases s2
  cases hskip
  cases hq
  cases hb
  cases hc
  rfl

theorem c7_deterministic_witness :
    compressorCompress ⟨0, false, false, false⟩ [0] =
      compressorCompress Settings.default [0] :=
  c7_deterministic [0] _ _ rfl rfl rfl rfl

/-- C8: for every new-offset match with offset ≥ 1, the offset LSB byte
emitted by the encoder (`((o-1) % 128) << 1` in backwards mode,
`(127 - (o-1) % 128) << 1` in forward mode, truncated to `u8`) has its least
significant bit equal to zero, so the subsequent backtrack write of the first
continuation bit of the length code ORs into a zero bit. -/
theorem c8_new_offset_lsb_even (backwards_mode : Bool) (offset : ℕ)
    (h : 1 ≤ offset) : newOffsetLsb backwards_mode offset % 2 = 0 := by
  unfold newOffsetLsb
  cases backwards_mode <;> simp [Nat.shiftLeft_eq] <;> omega

theorem c8_new_offset_lsb_even_witness :
    newOffsetLsb false 3 % 2 = 0 ∧ newOffsetLsb true 32640 % 2 = 0 :=
  ⟨c8_new_offset_lsb_even false 3 (by decide),
   c8_new_offset_lsb_even true 32640 (by decide)⟩

/-! ## C5: the interlaced Elias-Gamma bit sequence -/

/-- The bit sequence described by the claim for
`write_interlaced_elias_gamma(v, backwards, invert)`: for each binary digit of
`v` below the leading one, most significant first, a continuation bit that is
1 iff backwards mode is set followed by the data bit XOR invert; finally a
terminator bit that is 0 iff backwards mode is set. -/
def igClaimBits (value : ℕ) (backwards_mode invert_mode : Bool) : List ℕ :=
  (((List.range (bitLen value - 1)).reverse).map fun k =>
    [if backwards_mode then 1 else 0,
     if xor (value.testBit k) invert_mode then 1 else 0]).flatten ++
  [if backwards_mode then 0 else 1]

theorem igStartGo_eq (v : ℕ) (hv : 1 ≤ v) :
    ∀ fuel m, 1 ≤ m → 2 ^ m ≤ 2 * v → v < 2 ^ (m + fuel - 1) →
      igStartGo v fuel (2 ^ m) = 2 ^ Nat.size v := by
  intro fuel
  induction fuel with
  | zero =>
    intro m h1 h2 h3
    exfalso
    have hm : m - 1 + 1 = m := by omega
    rw [← hm, pow_succ] at h2
    have : m + 0 - 1 = m - 1 := by omega
    rw [this] at h3
    omega
  | succ fuel ih =>
    intro m h1 h2 h3
    unfold igStartGo
    split
    · rename_i hle
      rw [show (2 ^ m) <<< 1 = 2 ^ (m + 1) by
        rw [Nat.shiftLeft_eq, pow_one, ← pow_succ]]
      refine ih (m + 1) (by omega) (by rw [pow_succ]; omega) ?_
      have : m + 1 + fuel - 1 = m + (fuel + 1) - 1 := by omega
      rw [this]
      exact h3
    · rename_i hlt
      push_neg at hlt
      congr 1
      have hm : m - 1 + 1 = m := by omega
      have h2' : 2 ^ (m - 1) ≤ v := by
        rw [← hm, pow_succ] at h2
        omega
      have hsle : Nat.size v ≤ m := Nat.size_le.mpr hlt
      have hgle : m - 1 < Nat.size v := Nat.lt_size.mpr h2'
      omega

theorem igStart_eq (v : ℕ) (hv : 1 ≤ v) : igStart v = 2 ^ Nat.size v := by
  unfold igStart
  exact igStartGo_eq v hv (v + 2) 1 le_rfl (by omega)
    (lt_of_lt_of_le (Nat.lt_two_pow v)
      (Nat.pow_le_pow_right (by norm_num) (by omega)))

theorem igEmit_log {bw inv : Bool} {v : ℕ} :
    ∀ (k : ℕ) {fuel : ℕ} {c c' : Context}, k < fuel →
      igEmit bw inv v fuel (2 ^ k) c = some c' →
      c'.bitsLog = c.bitsLog ++
        ((List.range k).reverse.map fun j =>
          [if bw then 1 else 0,
           if xor (v.testBit j) inv then 1 else 0]).flatten := by
  intro k
  induction k with
  | zero =>
    intro fuel c c' hf h
    match fuel, hf with
    | fuel + 1, _ =>
      unfold igEmit at h
      dsimp only at h
      rw [if_pos (by decide)] at h
      cases h
      simp
  | succ k ih =>
    intro fuel c c' hf h
    match fuel, hf with
    | fuel + 1, hf =>
      unfold igEmit at h
      dsimp only at h
      rw [show (2 : ℕ) ^ (k + 1) >>> 1 = 2 ^ k by
        rw [Nat.shiftRight_eq_div_pow, pow_one, pow_succ,
          Nat.mul_div_cancel _ (by norm_num)]] at h
      rw [if_neg (pow_pos (by norm_num : (0:ℕ) < 2) k).ne'] at h
      cases heq1 : write_bit c (if bw then 1 else 0) with
      | none => rw [heq1] at h; cases h
      | some c1 =>
        rw [heq1] at h
        dsimp only at h
        cases heq2 : write_bit c1 (if inv then (if v &&& 2 ^ k ≠ 0 then 0 else 1)
            else (if v &&& 2 ^ k ≠ 0 then 1 else 0)) with
        | none => rw [heq2] at h; cases h
        | some c2 =>
          rw [heq2] at h
          dsimp only at h
          have hrec := ih (by omega) h
          have h1 := (length_write_bit heq1).2
          have h2 := (length_write_bit heq2).2
          have hdata : (if inv then (if v &&& 2 ^ k ≠ 0 then 0 else 1)
              else (if v &&& 2 ^ k ≠ 0 then 1 else 0)) =
              (if xor (v.testBit k) inv then 1 else 0) := by
            rw [Nat.and_two_pow]
            cases htb : v.testBit k <;> cases inv <;>
              simp [(pow_pos (by norm_num : (0:ℕ) < 2) k).ne']
          rw [hrec, h2, h1, hdata]
          rw [List.range_succ]
          simp [List.append_assoc]

theorem write_ieg_log {c c' : Context} {v : ℕ} {bw inv : Bool} (hv : 1 ≤ v)
    (h : write_interlaced_elias_gamma c v bw inv = some c') :
    c'.bitsLog = c.bitsLog ++ igClaimBits v bw inv := by
  unfold write_interlaced_elias_gamma at h
  dsimp only at h
  rw [igStart_eq v hv] at h
  have hsz : 1 ≤ Nat.size v := Nat.size_pos.mpr hv
  rw [show (2 : ℕ) ^ Nat.size v >>> 1 = 2 ^ (Nat.size v - 1) by
    rw [Nat.shiftRight_eq_div_pow, Nat.pow_div hsz (by norm_num)]] at h
  cases heq : igEmit bw inv v (2 ^ (Nat.size v - 1) + 1) (2 ^ (Nat.size v - 1)) c with
  | none => rw [heq] at h; cases h
  | some c1 =>
    rw [heq] at h
    have h1 := igEmit_log (Nat.size v - 1)
      (Nat.lt_succ_of_lt (Nat.lt_two_pow _)) heq
    have h2 := (length_write_bit h).2
    rw [h2, h1]
    unfold igClaimBits
    rw [bitLen_eq_size]
    have hterm : (if !bw then 1 else 0) = (if bw then (0:ℕ) else 1) := by
      cases bw <;> rfl
    rw [hterm, List.append_assoc]

/-- C5: for every value ≥ 1, `write_interlaced_elias_gamma(v, backwards, invert)`
emits, for each binary digit of `v` below the leading one (most significant
first), a continuation bit equal to 1 iff backwards mode is set, followed by
the data bit XOR invert, and finally a terminator bit equal to 0 iff backwards
mode is set; furthermore the compressor derives `invert_mode` as
`!classic_mode && !backwards_mode`. -/
theorem c5_interlaced_elias_gamma (c c' : Context) (v : ℕ) (bw inv : Bool)
    (hv : 1 ≤ v) (h : write_interlaced_elias_gamma c v bw inv = some c') :
    c'.bitsLog = c.bitsLog ++ igClaimBits v bw inv ∧
      ∀ classic_mode backwards_mode : Bool,
        invertMode classic_mode backwards_mode =
          (!classic_mode && !backwards_mode) :=
  ⟨write_ieg_log hv h, fun _ _ => rfl⟩

theorem c5_interlaced_elias_gamma_witness :
    (((write_interlaced_elias_gamma
          ⟨false, 0, 0, 0, [0], 0, 0, []⟩ 5 false false).get (by decide)).bitsLog =
        ([] : List ℕ) ++ igClaimBits 5 false false ∧
      ∀ classic_mode backwards_mode : Bool,
        invertMode classic_mode backwards_mode =
          (!classic_mode && !backwards_mode)) ∧
    igClaimBits 5 false false = [0, 0, 0, 1, 1] :=
  ⟨c5_interlaced_elias_gamma ⟨false, 0, 0, 0, [0], 0, 0, []⟩ _ 5 false false
      (by decide) (Option.some_get _).symm,
   by decide⟩

end ZX0

namespace ZX0

/-! ## C4: the arena free-list invariant -/

theorem getD_set_self {α : Type} [Inhabited α] (l : List α) (i : ℕ) (v : α)
    (h : i < l.length) : (l.set i v).getD i default = v := by
  induction l generalizing i with
  | nil => simp at h
  | cons x xs ih =>
    cases i with
    | zero => rfl
    | succ i => simpa using ih i (by simpa using h)

theorem getD_set_ne {α : Type} [Inhabited α] (l : List α) {i j : ℕ} (v : α)
    (h : i ≠ j) : (l.set i v).getD j default = l.getD j default := by
  induction l generalizing i j with
  | nil => rfl
  | cons x xs ih =>
    cases i with
    | zero =>
      cases j with
      | zero => exact absurd rfl h
      | succ j => rfl
    | succ i =>
      cases j with
      | zero => rfl
      | succ j => simpa using ih (by omega)

theorem count_set_add (l : List ℕ) (i v x : ℕ) (h : i < l.length) :
    (l.set i v).count x + (if l.getD i 0 = x then 1 else 0) =
      l.count x + (if v = x then 1 else 0) := by
  induction l generalizing i with
  | nil => simp at h
  | cons a as ih =>
    cases i with
    | zero =>
      simp only [List.set_cons_zero, List.getD_cons_zero, List.count_cons,
        beq_iff_eq]
      split_ifs <;> omega
    | succ i =>
      have hrec := ih i (by simpa using h)
      simp only [List.set_cons_succ, List.getD_cons_succ, List.count_cons,
        beq_iff_eq]
      split_ifs at hrec ⊢ <;> omega

/-- The refcount of the block at handle `h`. -/
def rcOf (a : Allocator) (h : ℕ) : ℕ := (a.blocks.getD h default).refcount

/-- The inductive arena invariant: handle 0 is the dead null sentinel, the
free list holds exactly the real handles of refcount 0 (once each), table
slots point below the arena length, and the refcount of every real handle
dominates its slot multiplicity. -/
structure ArenaInv (a : Allocator) (S : ℕ → ℕ) : Prop where
  rc0 : rcOf a 0 = 0
  len_pos : 0 < a.blocks.length
  flB : ∀ h ∈ a.free_list, 1 ≤ h ∧ h < a.blocks.length
  flC : ∀ h, 1 ≤ h → h < a.blocks.length →
    a.free_list.count h = if rcOf a h = 0 then 1 else 0
  sUB : ∀ h, a.blocks.length ≤ h → S h = 0
  cnt : ∀ h, 1 ≤ h → S h ≤ rcOf a h

theorem ArenaInv.congr {a : Allocator} {S S' : ℕ → ℕ} (inv : ArenaInv a S)
    (h : ∀ x, S' x = S x) : ArenaInv a S' :=
  ⟨inv.rc0, inv.len_pos, inv.flB, inv.flC,
   fun x hx => (h x).trans (inv.sUB x hx),
   fun x hx => (h x).le.trans (inv.cnt x hx)⟩

theorem ArenaInv.handle_lt {a : Allocator} {S : ℕ → ℕ} (inv : ArenaInv a S)
    {i : ℕ} (hS : 1 ≤ S i) : i < a.blocks.length := by
  by_contra hc
  push_neg at hc
  have := inv.sUB i hc
  omega

theorem arena_incRef {a : Allocator} {S : ℕ → ℕ} (inv : ArenaInv a S) {i : ℕ}
    (h0 : i ≠ 0) (hS : 1 ≤ S i) :
    ArenaInv ⟨a.free_list, incRef a.blocks i⟩
      (fun h => S h + if i = h then 1 else 0) := by
  have hlen : i < a.blocks.length := inv.handle_lt hS
  have hrc : 1 ≤ rcOf a i := le_trans hS (inv.cnt i (by omega))
  have hgetSelf : (incRef a.blocks i).getD i default =
      { a.blocks.getD i default with
          refcount := (a.blocks.getD i default).refcount + 1 } :=
    getD_set_self _ _ _ hlen
  have hrcSelf : rcOf ⟨a.free_list, incRef a.blocks i⟩ i = rcOf a i + 1 := by
    show ((incRef a.blocks i).getD i default).refcount = _
    rw [hgetSelf]
    rfl
  have hrcNe : ∀ j, j ≠ i → rcOf ⟨a.free_list, incRef a.blocks i⟩ j = rcOf a j := by
    intro j hj
    show ((incRef a.blocks i).getD j default).refcount = _
    unfold incRef
    rw [getD_set_ne _ _ (Ne.symm hj)]
    rfl
  have hlen2 : (⟨a.free_list, incRef a.blocks i⟩ : Allocator).blocks.length =
      a.blocks.length := by
    simp [incRef]
  refine ⟨?_, ?_, ?_, ?_, ?_, ?_⟩
  · rw [hrcNe 0 (Ne.symm h0)]
    exact inv.rc0
  · rw [hlen2]
    exact inv.len_pos
  · intro h hmem
    rw [hlen2]
    exact inv.flB h hmem
  · intro h h1 hl
    rw [hlen2] at hl
    show a.free_list.count h = _
    rw [inv.flC h h1 hl]
    by_cases hih : h = i
    · subst hih
      rw [hrcSelf, if_neg (by omega), if_neg (by omega)]
    · rw [hrcNe h hih]
  · intro h hl
    rw [hlen2] at hl
    have : i ≠ h := by omega
    rw [if_neg this, inv.sUB h hl]
  · intro h h1
    by_cases hih : h = i
    · subst hih
      rw [if_pos rfl, hrcSelf]
      exact Nat.add_le_add_right (inv.cnt h h1) 1
    · rw [if_neg (Ne.symm hih), hrcNe h hih]
      simpa using inv.cnt h h1

theorem arena_release {a : Allocator} {S : ℕ → ℕ} (inv : ArenaInv a S) {old : ℕ}
    (hS : 1 ≤ S old) :
    ArenaInv ⟨(releaseOld a.blocks a.free_list old).2,
              (releaseOld a.blocks a.free_list old).1⟩
      (fun h => S h - if old = h then 1 else 0) := by
  by_cases h0 : old = 0
  · subst h0
    unfold releaseOld
    rw [if_neg (by simp)]
    refine ⟨inv.rc0, inv.len_pos, inv.flB, inv.flC, ?_, ?_⟩
    · intro h hl
      rw [inv.sUB h hl]
      simp
    · intro h h1
      rw [if_neg (by omega : (0:ℕ) ≠ h)]
      show S h - 0 ≤ rcOf a h
      have := inv.cnt h h1
      omega
  · have hlen : old < a.blocks.length := inv.handle_lt hS
    have hrc : 1 ≤ rcOf a old := le_trans hS (inv.cnt old (by omega))
    unfold rcOf at hrc
    unfold releaseOld
    rw [if_pos h0]
    have hgetSelf : (decRef a.blocks old).getD old default =
        { a.blocks.getD old default with
            refcount := (a.blocks.getD old default).refcount - 1 } :=
      getD_set_self _ _ _ hlen
    have hgetNe : ∀ j, j ≠ old → (decRef a.blocks old).getD j default =
        a.blocks.getD j default := by
      intro j hj
      unfold decRef
      exact getD_set_ne _ _ (Ne.symm hj)
    have hlen2 : (decRef a.blocks old).length = a.blocks.length := by
      simp [decRef]
    have hrcSelf : ((decRef a.blocks old).getD old default).refcount =
        (a.blocks.getD old default).refcount - 1 := by
      rw [hgetSelf]
    dsimp only
    split
    · rename_i hzero
      have hrc1 : (a.blocks.getD old default).refcount = 1 := by
        rw [hrcSelf] at hzero
        omega
      refine ⟨?_, ?_, ?_, ?_, ?_, ?_⟩
      · show ((decRef a.blocks old).getD 0 default).refcount = 0
        rw [hgetNe 0 (Ne.symm h0)]
        exact inv.rc0
      · show 0 < (decRef a.blocks old).length
        rw [hlen2]
        exact inv.len_pos
      · intro h hmem
        show 1 ≤ h ∧ h < (decRef a.blocks old).length
        rw [hlen2]
        rcases List.mem_append.mp hmem with hm | hm
        · exact inv.flB h hm
        · have : h = old := by simpa using hm
          subst this
          exact ⟨by omega, hlen⟩
      · intro h h1 hl
        rw [hlen2] at hl
        show (a.free_list ++ [old]).count h =
          if ((decRef a.blocks old).getD h default).refcount = 0 then 1 else 0
        rw [List.count_append]
        by_cases hh : h = old
        · subst hh
          rw [inv.flC h h1 hl, if_neg (by unfold rcOf; omega), if_pos hzero]
          simp
        · rw [inv.flC h h1 hl]
          have hc1 : List.count h [old] = 0 := by
            rw [List.count_singleton']
            exact if_neg (fun he => hh he.symm)
          rw [hc1, hgetNe h hh]
          show (if rcOf a h = 0 then 1 else 0) + 0 =
            if rcOf a h = 0 then 1 else 0
          omega
      · intro h hl
        rw [hlen2] at hl
        rw [inv.sUB h hl]
        simp
      · intro h h1
        by_cases hh : h = old
        · subst hh
          rw [if_pos rfl]
          show S h - 1 ≤ ((decRef a.blocks h).getD h default).refcount
          rw [hrcSelf]
          have := inv.cnt h h1
          unfold rcOf at this
          omega
        · rw [if_neg (fun he => hh he.symm)]
          show S h - 0 ≤ ((decRef a.blocks old).getD h default).refcount
          rw [hgetNe h hh]
          have := inv.cnt h h1
          unfold rcOf at this
          omega
    · rename_i hnz
      refine ⟨?_, ?_, ?_, ?_, ?_, ?_⟩
      · show ((decRef a.blocks old).getD 0 default).refcount = 0
        rw [hgetNe 0 (Ne.symm h0)]
        exact inv.rc0
      · show 0 < (decRef a.blocks old).length
        rw [hlen2]
        exact inv.len_pos
      · intro h hmem
        show 1 ≤ h ∧ h < (decRef a.blocks old).length
        rw [hlen2]
        exact inv.flB h hmem
      · intro h h1 hl
        rw [hlen2] at hl
        show a.free_list.count h =
          if ((decRef a.blocks old).getD h default).refcount = 0 then 1 else 0
        rw [inv.flC h h1 hl]
        by_cases hh : h = old
        · subst hh
          rw [if_neg (by unfold rcOf; omega), if_neg hnz]
        · rw [hgetNe h hh]
          rfl
      · intro h hl
        rw [hlen2] at hl
        rw [inv.sUB h hl]
        simp
      · intro h h1
        by_cases hh : h = old
        · subst hh
          rw [if_pos rfl]
          show S h - 1 ≤ ((decRef a.blocks h).getD h default).refcount
          rw [hrcSelf]
          have := inv.cnt h h1
          unfold rcOf at this
          omega
        · rw [if_neg (fun he => hh he.symm)]
          show S h - 0 ≤ ((decRef a.blocks old).getD h default).refcount
          rw [hgetNe h hh]
          have := inv.cnt h h1
          unfold rcOf at this
          omega

theorem ArenaInv.mono {a : Allocator} {S S' : ℕ → ℕ} (inv : ArenaInv a S)
    (h : ∀ x, S' x ≤ S x) : ArenaInv a S' :=
  ⟨inv.rc0, inv.len_pos, inv.flB, inv.flC,
   fun x hx => Nat.le_zero.mp ((h x).trans (inv.sUB x hx).le),
   fun x hx => (h x).trans (inv.cnt x hx)⟩

theorem getD_append_lt {α : Type} [Inhabited α] (l : List α) (b : α) {j : ℕ}
    (h : j < l.length) : (l ++ [b]).getD j default = l.getD j default := by
  induction l generalizing j with
  | nil => simp at h
  | cons x xs ih =>
    cases j with
    | zero => rfl
    | succ j => simpa using ih (by simpa using h)

theorem getD_append_self {α : Type} [Inhabited α] (l : List α) (b : α) :
    (l ++ [b]).getD l.length default = b := by
  induction l with
  | nil => rfl
  | cons x xs ih => simpa using ih

/-- Installing a fresh block (refcount 1) into a recycled free-list slot. -/
theorem arena_install_recycle {b : Allocator} {T : ℕ → ℕ} (inv : ArenaInv b T)
    {i : ℕ} {rest : List ℕ} (hfree : b.free_list = i :: rest)
    (blk : Block) (hrc1 : blk.refcount = 1) :
    1 ≤ i ∧ i < b.blocks.length ∧
    ArenaInv ⟨rest, b.blocks.set i blk⟩
      (fun h => T h + if i = h then 1 else 0) := by
  have hmem : i ∈ b.free_list := by rw [hfree]; exact List.mem_cons_self ..
  obtain ⟨hi1, hilen⟩ := inv.flB i hmem
  have hcnti : b.free_list.count i = if rcOf b i = 0 then 1 else 0 :=
    inv.flC i hi1 hilen
  have hcpos : 1 ≤ b.free_list.count i := by
    rw [hfree]
    simp [List.count_cons]
  have hrci : rcOf b i = 0 := by
    by_contra hc
    rw [if_neg hc] at hcnti
    omega
  have hrest : rest.count i = 0 := by
    rw [hfree, List.count_cons] at hcnti
    rw [if_pos hrci] at hcnti
    simp at hcnti
    omega
  have hTi : T i = 0 := by
    have := inv.cnt i hi1
    omega
  have hgetSelf : (b.blocks.set i blk).getD i default = blk :=
    getD_set_self _ _ _ hilen
  have hgetNe : ∀ j, j ≠ i → (b.blocks.set i blk).getD j default =
      b.blocks.getD j default := fun j hj => getD_set_ne _ _ (Ne.symm hj)
  have hlen2 : (b.blocks.set i blk).length = b.blocks.length := by simp
  refine ⟨hi1, hilen, ?_, ?_, ?_, ?_, ?_, ?_⟩
  · show ((b.blocks.set i blk).getD 0 default).refcount = 0
    rw [hgetNe 0 (by omega)]
    exact inv.rc0
  · show 0 < (b.blocks.set i blk).length
    rw [hlen2]
    exact inv.len_pos
  · intro h hm
    show 1 ≤ h ∧ h < (b.blocks.set i blk).length
    rw [hlen2]
    exact inv.flB h (by rw [hfree]; exact List.mem_cons_of_mem _ hm)
  · intro h h1 hl
    rw [hlen2] at hl
    show rest.count h = if ((b.blocks.set i blk).getD h default).refcount = 0 then 1 else 0
    by_cases hh : h = i
    · subst hh
      rw [hrest, hgetSelf, hrc1]
      simp
    · rw [hgetNe h hh]
      have : b.free_list.count h = rest.count h := by
        rw [hfree, List.count_cons, if_neg (fun he => hh (beq_iff_eq.mp he).symm)]
        omega
      rw [← this]
      exact inv.flC h h1 hl
  · intro h hl
    rw [hlen2] at hl
    rw [inv.sUB h hl, if_neg (by omega)]
  · intro h h1
    by_cases hh : h = i
    · subst hh
      rw [if_pos rfl]
      show T h + 1 ≤ ((b.blocks.set h blk).getD h default).refcount
      rw [hgetSelf, hrc1, hTi]
    · rw [if_neg (fun he => hh he.symm)]
      show T h + 0 ≤ ((b.blocks.set i blk).getD h default).refcount
      rw [hgetNe h hh]
      have := inv.cnt h h1
      unfold rcOf at this
      omega

/-- Installing a fresh block (refcount 1) by appending to the arena
(the free list was empty). -/
theorem arena_install_append {b : Allocator} {T : ℕ → ℕ} (inv : ArenaInv b T)
    (hfree : b.free_list = []) (blk : Block) (hrc1 : blk.refcount = 1) :
    ArenaInv ⟨[], b.blocks ++ [blk]⟩
      (fun h => T h + if b.blocks.length = h then 1 else 0) := by
  have hgetLt : ∀ j, j < b.blocks.length →
      (b.blocks ++ [blk]).getD j default = b.blocks.getD j default :=
    fun j hj => getD_append_lt _ _ hj
  have hgetSelf : (b.blocks ++ [blk]).getD b.blocks.length default = blk :=
    getD_append_self _ _
  have hgetHi : ∀ j, b.blocks.length < j →
      (b.blocks ++ [blk]).getD j default = default := by
    intro j hj
    apply List.getD_eq_default
    simp
    omega
  refine ⟨?_, ?_, ?_, ?_, ?_, ?_⟩
  · show ((b.blocks ++ [blk]).getD 0 default).refcount = 0
    rw [hgetLt 0 inv.len_pos]
    exact inv.rc0
  · show 0 < (b.blocks ++ [blk]).length
    simp
  · intro h hm
    simp at hm
  · intro h h1 hl
    show List.count h [] = if ((b.blocks ++ [blk]).getD h default).refcount = 0 then 1 else 0
    have hl' : h < b.blocks.length + 1 := by simpa using hl
    by_cases hh : h = b.blocks.length
    · subst hh
      rw [hgetSelf, hrc1]
      simp
    · have hlt : h < b.blocks.length := by omega
      rw [hgetLt h hlt]
      have hfc := inv.flC h h1 hlt
      rw [hfree] at hfc
      simp only [List.count_nil] at hfc
      unfold rcOf at hfc
      show (0 : ℕ) = _
      omega
  · intro h hl
    have hl' : b.blocks.length + 1 ≤ h := by simpa using hl
    rw [inv.sUB h (by omega), if_neg (by omega)]
  · intro h h1
    by_cases hh : h = b.blocks.length
    · subst hh
      rw [if_pos rfl, inv.sUB b.blocks.length le_rfl]
      show 0 + 1 ≤ ((b.blocks ++ [blk]).getD b.blocks.length default).refcount
      rw [hgetSelf, hrc1]
    · rw [if_neg (fun he => hh he.symm)]
      by_cases hlt : h < b.blocks.length
      · show T h + 0 ≤ ((b.blocks ++ [blk]).getD h default).refcount
        rw [hgetLt h hlt]
        have := inv.cnt h h1
        unfold rcOf at this
        omega
      · rw [inv.sUB h (by omega)]
        omega

theorem arena_assign {a : Allocator} {S : ℕ → ℕ} (inv : ArenaInv a S)
    {old next : ℕ} (holdS : 1 ≤ S old) (hnext0 : next ≠ 0)
    (hnextS : 1 ≤ S next) :
    (a.assign old next).2 = next ∧
    ArenaInv (a.assign old next).1
      (fun h => S h + (if next = h then 1 else 0) - (if old = h then 1 else 0)) := by
  unfold Allocator.assign
  dsimp only
  refine ⟨rfl, ?_⟩
  have inv1 := arena_incRef inv hnext0 hnextS
  have inv2 := arena_release inv1
    (le_trans holdS (Nat.le_add_right _ _))
  exact inv2

theorem arena_assign_new {a : Allocator} {S : ℕ → ℕ} (inv : ArenaInv a S)
    {old : ℕ} (bits : ℕ) (idx : ℤ) (off : ℕ) {pred : ℕ}
    (holdS : 1 ≤ S old) (hpred : pred = 0 ∨ 1 ≤ S pred) :
    1 ≤ (a.assign_new old bits idx off pred).2 ∧
    ArenaInv (a.assign_new old bits idx off pred).1
      (fun h => S h - (if old = h then 1 else 0)
              + (if (a.assign_new old bits idx off pred).2 = h then 1 else 0)) := by
  unfold Allocator.assign_new
  dsimp only
  have inv1 : ArenaInv ⟨a.free_list,
      if pred ≠ 0 then incRef a.blocks pred else a.blocks⟩ S := by
    by_cases hp : pred = 0
    · rw [if_neg (not_not_intro hp)]
      exact ⟨inv.rc0, inv.len_pos, inv.flB, inv.flC, inv.sUB, inv.cnt⟩
    · rw [if_pos hp]
      rcases hpred with h0 | hSp
      · exact absurd h0 hp
      · exact (arena_incRef inv hp hSp).mono (fun x => Nat.le_add_right _ _)
  have inv2 := arena_release inv1 holdS
  dsimp only at inv2
  cases hfree : (releaseOld
      (if pred ≠ 0 then incRef a.blocks pred else a.blocks) a.free_list old).2 with
  | nil =>
    rw [hfree] at inv2
    dsimp only
    constructor
    · exact inv2.len_pos
    · exact arena_install_append inv2 rfl _ rfl
  | cons i rest =>
    rw [hfree] at inv2
    dsimp only
    obtain ⟨hi1, hilen, hinv⟩ := arena_install_recycle inv2 rfl
      ⟨bits, idx, off, pred, 1⟩ rfl
    exact ⟨hi1, hinv⟩

/-- The inductive invariant implies the executable check used by the
`arenaInvOk` ghost flag. -/
theorem checkArenaInv_true {a : Allocator} {S : ℕ → ℕ} (inv : ArenaInv a S)
    {slots : List ℕ} (hs : ∀ h, slots.count h = S h) :
    checkArenaInv a slots = true := by
  unfold checkArenaInv
  rw [Bool.and_eq_true]
  constructor
  · rw [List.all_eq_true]
    intro h hmem
    rw [List.mem_range] at hmem
    rw [Bool.or_eq_true, beq_iff_eq, beq_iff_eq]
    by_cases h0 : h = 0
    · left; exact h0
    · right
      exact inv.flC h (by omega) hmem
  · rw [List.all_eq_true]
    intro v hv
    rw [Bool.or_eq_true, beq_iff_eq, decide_eq_true_eq]
    by_cases hv0 : v = 0
    · left; exact hv0
    · right
      have hcount : 1 ≤ slots.count v := List.count_pos_iff.mpr hv
      rw [hs v] at hcount
      exact le_trans hcount (inv.cnt v (by omega))

theorem getD_mem (l : List ℕ) (i : ℕ) (h : i < l.length) : l.getD i 0 ∈ l := by
  induction l generalizing i with
  | nil => simp at h
  | cons x xs ih =>
    cases i with
    | zero => exact List.mem_cons_self ..
    | succ i => exact List.mem_cons_of_mem _ (ih i (by simpa using h))

theorem count_getD_pos (l : List ℕ) (i : ℕ) (h : i < l.length) :
    1 ≤ l.count (l.getD i 0) :=
  List.count_pos_iff.mpr (getD_mem l i h)

theorem slots_count (s : OptState) (x : ℕ) :
    (s.last_literal ++ s.last_match ++ s.optimal).count x = s.slotCount x := by
  rw [List.count_append, List.count_append]
  rfl

theorem slotCount_ll_pos (s : OptState) {o : ℕ} (h : o < s.last_literal.length) :
    1 ≤ s.slotCount (s.last_literal.getD o 0) := by
  have := count_getD_pos s.last_literal o h
  unfold OptState.slotCount
  omega

theorem slotCount_lm_pos (s : OptState) {o : ℕ} (h : o < s.last_match.length) :
    1 ≤ s.slotCount (s.last_match.getD o 0) := by
  have := count_getD_pos s.last_match o h
  unfold OptState.slotCount
  omega

theorem slotCount_opt_pos (s : OptState) {o : ℕ} (h : o < s.optimal.length) :
    1 ≤ s.slotCount (s.optimal.getD o 0) := by
  have := count_getD_pos s.optimal o h
  unfold OptState.slotCount
  omega

/-- The optimizer-loop invariant: table lengths are fixed, the arena invariant
holds for the current slot multiset, and the ghost check flag is still true. -/
structure OptInv (maxOff inputLen : ℕ) (s : OptState) : Prop where
  lit_len : s.last_literal.length = maxOff + 1
  mat_len : s.last_match.length = maxOff + 1
  opt_len : s.optimal.length = inputLen
  arena : ArenaInv s.alloc s.slotCount
  ok : s.arenaInvOk = true

theorem OptInv.of_check {maxOff inputLen : ℕ} {s : OptState}
    (l1 : s.last_literal.length = maxOff + 1)
    (l2 : s.last_match.length = maxOff + 1)
    (l3 : s.optimal.length = inputLen)
    (ha : ArenaInv s.alloc s.slotCount)
    (hok : s.arenaInvOk = true) :
    OptInv maxOff inputLen s.recordInv := by
  refine ⟨l1, l2, l3, ha, ?_⟩
  show (s.arenaInvOk &&
    checkArenaInv s.alloc (s.last_literal ++ s.last_match ++ s.optimal)) = true
  rw [hok, Bool.true_and]
  exact checkArenaInv_true ha (fun x => slots_count s x)

theorem optInv_updateOptimal {maxOff inputLen : ℕ} {s : OptState}
    (inv : OptInv maxOff inputLen s) {index bits cand : ℕ}
    (hidx : index < inputLen) (hcand0 : cand ≠ 0)
    (hcandS : 1 ≤ s.slotCount cand) :
    OptInv maxOff inputLen (updateOptimal s index bits cand) := by
  unfold updateOptimal
  split
  · dsimp only
    have hoff : index < s.optimal.length := by rw [inv.opt_len]; exact hidx
    have holdS : 1 ≤ s.slotCount (s.optimal.getD index 0) :=
      slotCount_opt_pos s hoff
    obtain ⟨hv, hinv⟩ := arena_assign inv.arena holdS hcand0 hcandS
    apply OptInv.of_check
    · exact inv.lit_len
    · exact inv.mat_len
    · show (s.optimal.set index _).length = inputLen
      rw [List.length_set]
      exact inv.opt_len
    · apply hinv.congr
      intro x
      have hc := count_set_add s.optimal index
        ((s.alloc.assign (s.optimal.getD index 0) cand).2) x hoff
      rw [hv] at hc
      show s.last_literal.count x + s.last_match.count x +
        (s.optimal.set index (s.alloc.assign (s.optimal.getD index 0) cand).2).count x =
        s.slotCount x + (if cand = x then 1 else 0) -
          (if s.optimal.getD index 0 = x then 1 else 0)
      rw [hv]
      unfold OptState.slotCount
      omega
    · exact inv.ok
  · exact inv

theorem getD_set_self0 (l : List ℕ) (i v : ℕ) (h : i < l.length) :
    (l.set i v).getD i 0 = v :=
  getD_set_self l i v h

theorem optInv_set_match_length {maxOff inputLen : ℕ} {s : OptState}
    (inv : OptInv maxOff inputLen s) (M : List ℕ) :
    OptInv maxOff inputLen { s with match_length := M } :=
  ⟨inv.lit_len, inv.mat_len, inv.opt_len, inv.arena, inv.ok⟩

theorem optInv_set_best_length {maxOff inputLen : ℕ} {s : OptState}
    (inv : OptInv maxOff inputLen s) (B : List ℕ) :
    OptInv maxOff inputLen { s with best_length := B } :=
  ⟨inv.lit_len, inv.mat_len, inv.opt_len, inv.arena, inv.ok⟩

theorem optInv_set_trace {maxOff inputLen : ℕ} {s : OptState}
    (inv : OptInv maxOff inputLen s) (T : List (ℕ × ℕ)) :
    OptInv maxOff inputLen { s with trace := T } :=
  ⟨inv.lit_len, inv.mat_len, inv.opt_len, inv.arena, inv.ok⟩

theorem optInv_copyFromLastOffset {maxOff inputLen : ℕ} {s : OptState}
    (inv : OptInv maxOff inputLen s) {index offset : ℕ}
    (hidx : index < inputLen) (hoff : offset < maxOff + 1) :
    OptInv maxOff inputLen (copyFromLastOffset index offset s) := by
  unfold copyFromLastOffset
  split
  · dsimp only
    have hoffm : offset < s.last_match.length := by rw [inv.mat_len]; exact hoff
    have hoffl : offset < s.last_literal.length := by rw [inv.lit_len]; exact hoff
    have holdS := slotCount_lm_pos s hoffm
    have hpredS := slotCount_ll_pos s hoffl
    obtain ⟨hv1, hinv⟩ := arena_assign_new inv.arena
      ((s.alloc.get (s.last_literal.getD offset 0)).bits + 1 +
        elias_gamma_bits
          ((index : ℤ) - (s.alloc.get (s.last_literal.getD offset 0)).index).toNat)
      (index : ℤ) offset holdS (Or.inr hpredS)
    refine optInv_updateOptimal (OptInv.of_check ?_ ?_ ?_ ?_ ?_) hidx ?_ ?_
    · exact inv.lit_len
    · show (s.last_match.set offset _).length = maxOff + 1
      rw [List.length_set]
      exact inv.mat_len
    · exact inv.opt_len
    · apply hinv.congr
      intro x
      have hc := count_set_add s.last_match offset
        ((s.alloc.assign_new (s.last_match.getD offset 0)
          ((s.alloc.get (s.last_literal.getD offset 0)).bits + 1 +
            elias_gamma_bits
              ((index : ℤ) - (s.alloc.get (s.last_literal.getD offset 0)).index).toNat)
          (index : ℤ) offset (s.last_literal.getD offset 0)).2) x hoffm
      have hmem := count_getD_pos s.last_match offset hoffm
      unfold OptState.slotCount
      dsimp only
      by_cases hx : s.last_match.getD offset 0 = x
      · rw [hx] at hc hmem ⊢
        have hk1 : (if x = x then (1 : ℕ) else 0) = 1 := if_pos rfl
        omega
      · have hk : (if s.last_match.getD offset 0 = x then (1 : ℕ) else 0) = 0 :=
          if_neg hx
        omega
    · exact inv.ok
    · show (s.last_match.set offset _).getD offset 0 ≠ 0
      rw [getD_set_self0 _ _ _ hoffm]
      omega
    · apply slotCount_lm_pos
      show offset < (s.last_match.set offset _).length
      rw [List.length_set]
      exact hoffm
  · exact inv

theorem optInv_copyLiterals {maxOff inputLen : ℕ} {s : OptState}
    (inv : OptInv maxOff inputLen s) {index offset : ℕ}
    (hidx : index < inputLen) (hoff : offset < maxOff + 1) :
    OptInv maxOff inputLen (copyLiterals index offset s) := by
  unfold copyLiterals
  split
  · dsimp only
    have hoffm : offset < s.last_match.length := by rw [inv.mat_len]; exact hoff
    have hoffl : offset < s.last_literal.length := by rw [inv.lit_len]; exact hoff
    have holdS := slotCount_ll_pos s hoffl
    have hpredS := slotCount_lm_pos s hoffm
    obtain ⟨hv1, hinv⟩ := arena_assign_new inv.arena
      ((s.alloc.get (s.last_match.getD offset 0)).bits + 1 +
        elias_gamma_bits
          ((index : ℤ) - (s.alloc.get (s.last_match.getD offset 0)).index).toNat +
        ((index : ℤ) - (s.alloc.get (s.last_match.getD offset 0)).index).toNat * 8)
      (index : ℤ) 0 holdS (Or.inr hpredS)
    refine optInv_updateOptimal (OptInv.of_check ?_ ?_ ?_ ?_ ?_) hidx ?_ ?_
    · show (s.last_literal.set offset _).length = maxOff + 1
      rw [List.length_set]
      exact inv.lit_len
    · exact inv.mat_len
    · exact inv.opt_len
    · apply hinv.congr
      intro x
      have hc := count_set_add s.last_literal offset
        ((s.alloc.assign_new (s.last_literal.getD offset 0)
          ((s.alloc.get (s.last_match.getD offset 0)).bits + 1 +
            elias_gamma_bits
              ((index : ℤ) - (s.alloc.get (s.last_match.getD offset 0)).index).toNat +
            ((index : ℤ) - (s.alloc.get (s.last_match.getD offset 0)).index).toNat * 8)
          (index : ℤ) 0 (s.last_match.getD offset 0)).2) x hoffl
      have hmem := count_getD_pos s.last_literal offset hoffl
      unfold OptState.slotCount
      dsimp only
      by_cases hx : s.last_literal.getD offset 0 = x
      · rw [hx] at hc hmem ⊢
        have hk1 : (if x = x then (1 : ℕ) else 0) = 1 := if_pos rfl
        omega
      · have hk : (if s.last_literal.getD offset 0 = x then (1 : ℕ) else 0) = 0 :=
          if_neg hx
        omega
    · exact inv.ok
    · show (s.last_literal.set offset _).getD offset 0 ≠ 0
      rw [getD_set_self0 _ _ _ hoffl]
      omega
    · apply slotCount_ll_pos
      show offset < (s.last_literal.set offset _).length
      rw [List.length_set]
      exact hoffl
  · exact inv

theorem optInv_copyFromNewOffsetCore {maxOff inputLen : ℕ} {s : OptState}
    (inv : OptInv maxOff inputLen s) {index offset : ℕ} {bls : ℕ}
    (hidx : index < inputLen) (hoff : offset < maxOff + 1) :
    OptInv maxOff inputLen (copyFromNewOffsetCore index offset s bls).1 := by
  unfold copyFromNewOffsetCore
  dsimp only
  split
  · dsimp only
    have hoffm : offset < s.last_match.length := by rw [inv.mat_len]; exact hoff
    have hoffo : index - s.best_length.getD (s.match_length.getD offset 0) 0 <
        s.optimal.length := by
      rw [inv.opt_len]
      omega
    have holdS := slotCount_lm_pos s hoffm
    have hpredS := slotCount_opt_pos s hoffo
    obtain ⟨hv1, hinv⟩ := arena_assign_new inv.arena
      ((s.alloc.get (s.optimal.getD
          (index - s.best_length.getD (s.match_length.getD offset 0) 0) 0)).bits + 8 +
        elias_gamma_bits ((offset - 1) / 128 + 1) +
        elias_gamma_bits (s.best_length.getD (s.match_length.getD offset 0) 0 - 1))
      (index : ℤ) offset holdS (Or.inr hpredS)
    refine optInv_updateOptimal (OptInv.of_check ?_ ?_ ?_ ?_ ?_) hidx ?_ ?_
    · exact inv.lit_len
    · show (s.last_match.set offset _).length = maxOff + 1
      rw [List.length_set]
      exact inv.mat_len
    · exact inv.opt_len
    · apply hinv.congr
      intro x
      have hc := count_set_add s.last_match offset
        ((s.alloc.assign_new (s.last_match.getD offset 0)
          ((s.alloc.get (s.optimal.getD
              (index - s.best_length.getD (s.match_length.getD offset 0) 0) 0)).bits + 8 +
            elias_gamma_bits ((offset - 1) / 128 + 1) +
            elias_gamma_bits (s.best_length.getD (s.match_length.getD offset 0) 0 - 1))
          (index : ℤ) offset (s.optimal.getD
            (index - s.best_length.getD (s.match_length.getD offset 0) 0) 0)).2) x hoffm
      have hmem := count_getD_pos s.last_match offset hoffm
      unfold OptState.slotCount
      dsimp only
      by_cases hx : s.last_match.getD offset 0 = x
      · rw [hx] at hc hmem ⊢
        have hk1 : (if x = x then (1 : ℕ) else 0) = 1 := if_pos rfl
        omega
      · have hk : (if s.last_match.getD offset 0 = x then (1 : ℕ) else 0) = 0 :=
          if_neg hx
        omega
    · exact inv.ok
    · show (s.last_match.set offset _).getD offset 0 ≠ 0
      rw [getD_set_self0 _ _ _ hoffm]
      omega
    · apply slotCount_lm_pos
      show offset < (s.last_match.set offset _).length
      rw [List.length_set]
      exact hoffm
  · exact inv

theorem optInv_copyFromNewOffset {maxOff inputLen : ℕ} {s : OptState}
    (inv : OptInv maxOff inputLen s) {index offset bls : ℕ}
    (hidx : index < inputLen) (hoff : offset < maxOff + 1) :
    OptInv maxOff inputLen (copyFromNewOffset index offset s bls).1 := by
  unfold copyFromNewOffset
  dsimp only
  exact optInv_copyFromNewOffsetCore (optInv_set_best_length inv _) hidx hoff

theorem optInv_processOffsetMatch {maxOff inputLen : ℕ} {s : OptState}
    (inv : OptInv maxOff inputLen s) {index offset bls : ℕ}
    (hidx : index < inputLen) (hoff : offset < maxOff + 1) :
    OptInv maxOff inputLen (processOffsetMatch index offset s bls).1 := by
  unfold processOffsetMatch
  dsimp only
  split
  · exact optInv_copyFromNewOffset
      (optInv_set_match_length (optInv_copyFromLastOffset inv hidx hoff) _)
      hidx hoff
  · exact optInv_set_match_length (optInv_copyFromLastOffset inv hidx hoff) _

theorem optInv_processOffsetNoMatch {maxOff inputLen : ℕ} {s : OptState}
    (inv : OptInv maxOff inputLen s) {index offset bls : ℕ}
    (hidx : index < inputLen) (hoff : offset < maxOff + 1) :
    OptInv maxOff inputLen (processOffsetNoMatch index offset s bls).1 := by
  unfold processOffsetNoMatch
  dsimp only
  exact optInv_copyLiterals (optInv_set_match_length inv _) hidx hoff

theorem optInv_processOffset {maxOff inputLen : ℕ} (input : List ℕ)
    (skip : ℕ) {index offset : ℕ} {sb : OptState × ℕ}
    (inv : OptInv maxOff inputLen sb.1)
    (hidx : index < inputLen) (hoff : offset < maxOff + 1) :
    OptInv maxOff inputLen (processOffset input skip index sb offset).1 := by
  unfold processOffset
  split
  · exact optInv_processOffsetMatch inv hidx hoff
  · exact optInv_processOffsetNoMatch inv hidx hoff

theorem optInv_foldOffsets {maxOff inputLen : ℕ} (input : List ℕ)
    (skip index : ℕ) (hidx : index < inputLen) (l : List ℕ) :
    (∀ o ∈ l, o < maxOff + 1) → ∀ sb : OptState × ℕ,
      OptInv maxOff inputLen sb.1 →
      OptInv maxOff inputLen (l.foldl (processOffset input skip index) sb).1 := by
  induction l with
  | nil => intro _ sb inv; exact inv
  | cons o rest ih =>
    intro hl sb inv
    rw [List.foldl_cons]
    exact ih (fun x hx => hl x (List.mem_cons_of_mem _ hx)) _
      (optInv_processOffset input skip inv hidx (hl o (List.mem_cons_self _ _)))

theorem offset_ceiling_le {i j limit : ℕ} (hlim : 1 ≤ limit) (h : i ≤ j) :
    offset_ceiling i limit ≤ offset_ceiling j limit := by
  unfold offset_ceiling INITIAL_OFFSET
  split_ifs <;> omega

theorem offset_ceiling_pos {i limit : ℕ} (h : 1 ≤ limit) :
    1 ≤ offset_ceiling i limit := by
  unfold offset_ceiling INITIAL_OFFSET
  split_ifs <;> omega

theorem optInv_outerStep {maxOff inputLen : ℕ} {s : OptState}
    (inv : OptInv maxOff inputLen s) (input : List ℕ)
    (skip offset_limit : ℕ) {index : ℕ} (hidx : index < inputLen)
    (hco : offset_ceiling index offset_limit ≤ maxOff) :
    OptInv maxOff inputLen (outerStep input skip offset_limit s index) := by
  unfold outerStep
  dsimp only
  refine optInv_foldOffsets input skip index hidx _ ?_ _ ?_
  · intro o ho
    have := List.mem_range'_1.mp ho
    omega
  · show OptInv maxOff inputLen
      (if index % 128 = 0 then
        { s with trace := s.trace ++ [(index, input.length - skip)] } else s)
    split
    · exact optInv_set_trace inv _
    · exact inv

theorem optInv_optLoop {maxOff inputLen : ℕ} (input : List ℕ)
    (skip offset_limit : ℕ)
    (hmax : ∀ i, i < inputLen → offset_ceiling i offset_limit ≤ maxOff)
    (l : List ℕ) :
    (∀ i ∈ l, i < inputLen) → ∀ s : OptState, OptInv maxOff inputLen s →
      OptInv maxOff inputLen (optLoop input skip offset_limit s l) := by
  induction l with
  | nil => intro _ s inv; exact inv
  | cons i rest ih =>
    intro hl s inv
    show OptInv maxOff inputLen (optLoop input skip offset_limit
      (outerStep input skip offset_limit s i) rest)
    exact ih (fun x hx => hl x (List.mem_cons_of_mem _ hx)) _
      (optInv_outerStep inv input skip offset_limit
        (hl i (List.mem_cons_self _ _)) (hmax i (hl i (List.mem_cons_self _ _))))

theorem count_replicate_zero_ne (n x : ℕ) (hx : x ≠ 0) :
    (List.replicate n (0 : ℕ)).count x = 0 := by
  induction n with
  | zero => rfl
  | succ n ih =>
    rw [List.replicate_succ, List.count_cons, ih]
    simp only [beq_iff_eq]
    rw [if_neg fun h => hx h.symm]

theorem arenaInv_new (S : ℕ → ℕ) (hS : ∀ h, 1 ≤ h → S h = 0) :
    ArenaInv Allocator.new S := by
  refine ⟨rfl, by decide, ?_, ?_, ?_, ?_⟩
  · intro h hmem
    simp [Allocator.new] at hmem
  · intro h h1 hlen
    have hl1 : (Allocator.new).blocks.length = 1 := rfl
    omega
  · intro h hlen
    have hl1 : (Allocator.new).blocks.length = 1 := rfl
    exact hS h (by omega)
  · intro h h1
    rw [hS h h1]
    exact Nat.zero_le _

theorem optInv_init_core (maxOff len skip : ℕ) (hmo : 1 ≤ maxOff) (B : List ℕ) :
    OptInv maxOff len (OptState.recordInv
      { alloc := (Allocator.new.assign_new
          ((List.replicate (maxOff + 1) (0 : ℕ)).getD INITIAL_OFFSET 0) 0
          ((skip : ℤ) - 1) INITIAL_OFFSET 0).1,
        last_literal := List.replicate (maxOff + 1) 0,
        last_match := (List.replicate (maxOff + 1) (0 : ℕ)).set INITIAL_OFFSET
          (Allocator.new.assign_new
            ((List.replicate (maxOff + 1) (0 : ℕ)).getD INITIAL_OFFSET 0) 0
            ((skip : ℤ) - 1) INITIAL_OFFSET 0).2,
        optimal := List.replicate len 0,
        match_length := List.replicate (maxOff + 1) 0,
        best_length := B,
        trace := [],
        arenaInvOk := true }) := by
  have hbound : INITIAL_OFFSET < (List.replicate (maxOff + 1) (0 : ℕ)).length := by
    rw [List.length_replicate]
    show 1 < maxOff + 1
    omega
  refine OptInv.of_check ?_ ?_ ?_ ?_ rfl
  · exact List.length_replicate ..
  · show ((List.replicate (maxOff + 1) (0 : ℕ)).set INITIAL_OFFSET _).length =
      maxOff + 1
    rw [List.length_set]
    exact List.length_replicate ..
  · exact List.length_replicate ..
  · have base : ArenaInv Allocator.new (fun x =>
        (List.replicate (maxOff + 1) (0 : ℕ)).count x +
        (List.replicate (maxOff + 1) (0 : ℕ)).count x +
        (List.replicate len (0 : ℕ)).count x) := by
      apply arenaInv_new
      intro h h1
      rw [count_replicate_zero_ne (maxOff + 1) h (by omega),
        count_replicate_zero_ne len h (by omega)]
    have holdS : 1 ≤
        (List.replicate (maxOff + 1) (0 : ℕ)).count
          ((List.replicate (maxOff + 1) (0 : ℕ)).getD INITIAL_OFFSET 0) +
        (List.replicate (maxOff + 1) (0 : ℕ)).count
          ((List.replicate (maxOff + 1) (0 : ℕ)).getD INITIAL_OFFSET 0) +
        (List.replicate len (0 : ℕ)).count
          ((List.replicate (maxOff + 1) (0 : ℕ)).getD INITIAL_OFFSET 0) := by
      have := count_getD_pos (List.replicate (maxOff + 1) 0) INITIAL_OFFSET hbound
      omega
    obtain ⟨hv1, hinv⟩ := arena_assign_new base 0 ((skip : ℤ) - 1)
      INITIAL_OFFSET holdS (Or.inl rfl)
    apply hinv.congr
    intro x
    have hc := count_set_add (List.replicate (maxOff + 1) 0) INITIAL_OFFSET
      ((Allocator.new.assign_new
        ((List.replicate (maxOff + 1) (0 : ℕ)).getD INITIAL_OFFSET 0) 0
        ((skip : ℤ) - 1) INITIAL_OFFSET 0).2) x hbound
    have hmem := count_getD_pos (List.replicate (maxOff + 1) 0) INITIAL_OFFSET hbound
    unfold OptState.slotCount
    dsimp only
    by_cases hx : (List.replicate (maxOff + 1) (0 : ℕ)).getD INITIAL_OFFSET 0 = x
    · rw [hx] at hc hmem ⊢
      have hk1 : (if x = x then (1 : ℕ) else 0) = 1 := if_pos rfl
      omega
    · have hk : (if (List.replicate (maxOff + 1) (0 : ℕ)).getD INITIAL_OFFSET 0 = x
          then (1 : ℕ) else 0) = 0 := if_neg hx
      omega

theorem optInv_optInit (input : List ℕ) (skip offset_limit : ℕ)
    (hlim : 1 ≤ offset_limit) :
    OptInv (offset_ceiling (input.length - 1) offset_limit) input.length
      (optInit input skip offset_limit) := by
  have hmo : 1 ≤ offset_ceiling (input.length - 1) offset_limit :=
    offset_ceiling_pos hlim
  unfold optInit
  dsimp only
  split
  · exact optInv_init_core _ _ skip hmo _
  · exact optInv_init_core _ _ skip hmo _

/-- C4: at every step of the optimizer — after every `assign` and
`assign_new` call — every block with refcount 0 has its handle on the free
list exactly once, every block with positive refcount is absent from the
free list, and every handle held in a `last_literal`/`last_match`/`optimal`
table slot refers to a block with refcount ≥ 1.  The ghost flag
`arenaInvOk` conjoins the executable check `checkArenaInv` immediately
after every `assign`/`assign_new` call, so its truth in the final state
states exactly that the check passed at every such step. -/
theorem c4_arena_free_list_invariant (input : List ℕ) (skip offset_limit : ℕ)
    (hlim : 1 ≤ offset_limit) {st : OptState} {t : ℕ}
    (h : optimize input skip offset_limit = some (st, t)) :
    st.arenaInvOk = true := by
  unfold optimize at h
  split at h
  · exact absurd h (by simp)
  · dsimp only at h
    rw [Option.map_eq_some'] at h
    obtain ⟨a, ha, hfa⟩ := h
    rw [Prod.mk.injEq] at hfa
    obtain ⟨h1, h2⟩ := hfa
    subst h1
    exact (optInv_optLoop input skip offset_limit
      (fun i hi => offset_ceiling_le hlim (by omega))
      (List.range' skip (input.length - skip))
      (fun i hi => by
        have := List.mem_range'_1.mp hi
        omega)
      _ (optInv_optInit input skip offset_limit hlim)).ok

set_option maxRecDepth 8000 in
/-- Closed witness for `c4_arena_free_list_invariant`: the single-byte
input `[0]` with no skipping and the full ZX0 window. -/
theorem c4_arena_free_list_invariant_witness :
    ((optimize [0] 0 MAX_OFFSET_ZX0).get (by decide)).1.arenaInvOk = true :=
  c4_arena_free_list_invariant [0] 0 MAX_OFFSET_ZX0 (by decide)
    (Option.some_get (by decide)).symm

/-! ## The one-effective-byte compressions (claim C3) -/

theorem getD_replicate (n i : ℕ) : (List.replicate n (0 : ℕ)).getD i 0 = 0 := by
  induction n generalizing i with
  | zero => rfl
  | succ n ih =>
    cases i with
    | zero => rfl
    | succ i => exact ih i

theorem set_zero_replicate (n i : ℕ) :
    (List.replicate n (0 : ℕ)).set i 0 = List.replicate n 0 := by
  induction n generalizing i with
  | zero => rfl
  | succ n ih =>
    cases i with
    | zero => rfl
    | succ i =>
      show 0 :: (List.replicate n (0 : ℕ)).set i 0 = 0 :: List.replicate n 0
      rw [ih i]

theorem get?_set_self (l : List ℕ) (i v : ℕ) (h : i < l.length) :
    (l.set i v).get? i = some v := by
  induction l generalizing i with
  | nil => simp at h
  | cons a t ih =>
    cases i with
    | zero => rfl
    | succ i => exact ih i (by simpa using h)

theorem all_replicate_zero (n : ℕ) (p : ℕ → Bool) (h : p 0 = true) :
    (List.replicate n (0 : ℕ)).all p = true := by
  induction n with
  | zero => rfl
  | succ n ih => rw [List.replicate_succ, List.all_cons, h, ih]; rfl

theorem all_set_of_all {l : List ℕ} {p : ℕ → Bool} (hl : l.all p = true)
    (i v : ℕ) (hv : p v = true) : (l.set i v).all p = true := by
  induction l generalizing i with
  | nil => rfl
  | cons a t ih =>
    rw [List.all_cons, Bool.and_eq_true] at hl
    cases i with
    | zero =>
      show (v :: t).all p = true
      rw [List.all_cons, hv, hl.2]
      rfl
    | succ i =>
      show (a :: t.set i v).all p = true
      rw [List.all_cons, hl.1, ih hl.2 i]
      rfl

theorem init_assign_eq (M len skip : ℕ) (BL : List ℕ) :
    OptState.recordInv
      { alloc := (Allocator.new.assign_new
          ((List.replicate (M + 1) (0 : ℕ)).getD INITIAL_OFFSET 0) 0
          ((skip : ℤ) - 1) INITIAL_OFFSET 0).1,
        last_literal := List.replicate (M + 1) 0,
        last_match := (List.replicate (M + 1) (0 : ℕ)).set INITIAL_OFFSET
          (Allocator.new.assign_new
            ((List.replicate (M + 1) (0 : ℕ)).getD INITIAL_OFFSET 0) 0
            ((skip : ℤ) - 1) INITIAL_OFFSET 0).2,
        optimal := List.replicate len 0,
        match_length := List.replicate (M + 1) 0,
        best_length := BL,
        trace := [],
        arenaInvOk := true } =
      { alloc := ⟨[], [⟨0, 0, 0, 0, 0⟩, ⟨0, (skip : ℤ) - 1, 1, 0, 1⟩]⟩,
        last_literal := List.replicate (M + 1) 0,
        last_match := (List.replicate (M + 1) (0 : ℕ)).set 1 1,
        optimal := List.replicate len 0,
        match_length := List.replicate (M + 1) 0,
        best_length := BL,
        trace := [],
        arenaInvOk := true } := by
  rw [getD_replicate (M + 1) INITIAL_OFFSET]
  have h1 : Allocator.new.assign_new 0 0 ((skip : ℤ) - 1) INITIAL_OFFSET 0 =
      (⟨[], [⟨0, 0, 0, 0, 0⟩, ⟨0, (skip : ℤ) - 1, 1, 0, 1⟩]⟩, 1) := rfl
  rw [h1]
  unfold OptState.recordInv
  dsimp only
  have hchk : checkArenaInv
      ⟨[], [⟨0, 0, 0, 0, 0⟩, ⟨0, (skip : ℤ) - 1, 1, 0, 1⟩]⟩
      (List.replicate (M + 1) 0 ++
        (List.replicate (M + 1) (0 : ℕ)).set INITIAL_OFFSET 1 ++
        List.replicate len 0) =
      true := by
    unfold checkArenaInv
    rw [Bool.and_eq_true]
    constructor
    · rfl
    · rw [List.all_append, List.all_append]
      rw [all_replicate_zero _ _ rfl,
        all_set_of_all (all_replicate_zero _ _ rfl) INITIAL_OFFSET 1 rfl,
        all_replicate_zero _ _ rfl]
      rfl
  rw [hchk]
  rfl

theorem optInit_skip_last (input : List ℕ) :
    optInit input (input.length - 1) MAX_OFFSET_ZX0 =
      { alloc := ⟨[], [⟨0, 0, 0, 0, 0⟩,
          ⟨0, ((input.length - 1 : ℕ) : ℤ) - 1, 1, 0, 1⟩]⟩,
        last_literal := List.replicate
          (offset_ceiling (input.length - 1) MAX_OFFSET_ZX0 + 1) 0,
        last_match := (List.replicate
          (offset_ceiling (input.length - 1) MAX_OFFSET_ZX0 + 1) (0 : ℕ)).set 1 1,
        optimal := List.replicate input.length 0,
        match_length := List.replicate
          (offset_ceiling (input.length - 1) MAX_OFFSET_ZX0 + 1) 0,
        best_length := if input.length > 2
          then (List.replicate input.length (0 : ℕ)).set 2 2
          else List.replicate input.length 0,
        trace := [],
        arenaInvOk := true } := by
  unfold optInit
  dsimp only
  by_cases hc : input.length > 2
  · simp only [if_pos hc]
    exact init_assign_eq _ _ _ _
  · simp only [if_neg hc]
    exact init_assign_eq _ _ _ _

theorem recordInv_eq_of_check {s : OptState}
    (h : checkArenaInv s.alloc
      (s.last_literal ++ s.last_match ++ s.optimal) = true)
    (hok : s.arenaInvOk = true) :
    OptState.recordInv s = { s with arenaInvOk := true } := by
  unfold OptState.recordInv
  rw [h, hok]
  rfl

theorem processOffset_one_skip (input : List ℕ) (skip len L : ℕ) (hL : 2 ≤ L)
    (T : List (ℕ × ℕ)) (BL : List ℕ) :
    processOffset input skip skip
      ({ alloc := ⟨[], [⟨0, 0, 0, 0, 0⟩, ⟨0, (skip : ℤ) - 1, 1, 0, 1⟩]⟩,
         last_literal := List.replicate L 0,
         last_match := (List.replicate L (0 : ℕ)).set 1 1,
         optimal := List.replicate len 0,
         match_length := List.replicate L 0,
         best_length := BL, trace := T, arenaInvOk := true }, 2) 1 =
      ({ alloc := ⟨[], [⟨0, 0, 0, 0, 0⟩, ⟨0, (skip : ℤ) - 1, 1, 0, 2⟩,
           ⟨10, (skip : ℤ), 0, 1, 2⟩]⟩,
         last_literal := (List.replicate L (0 : ℕ)).set 1 2,
         last_match := (List.replicate L (0 : ℕ)).set 1 1,
         optimal := (List.replicate len (0 : ℕ)).set skip 2,
         match_length := List.replicate L 0,
         best_length := BL, trace := T, arenaInvOk := true }, 2) := by
  unfold processOffset
  rw [if_neg (fun hcon => hcon.2.1 rfl)]
  unfold processOffsetNoMatch
  dsimp only
  rw [set_zero_replicate]
  unfold copyLiterals
  dsimp only
  have hg : ((List.replicate L (0 : ℕ)).set 1 1).getD 1 0 = 1 :=
    getD_set_self0 _ _ _ (by rw [List.length_replicate]; omega)
  rw [hg]
  rw [if_pos (by decide : (1 : ℕ) ≠ 0)]
  rw [show ((⟨[], [⟨0, 0, 0, 0, 0⟩,
      ⟨0, (skip : ℤ) - 1, 1, 0, 1⟩]⟩ : Allocator).get 1) =
    (⟨0, (skip : ℤ) - 1, 1, 0, 1⟩ : Block) from rfl]
  dsimp only
  rw [show (skip : ℤ) - ((skip : ℤ) - 1) = 1 from by ring]
  rw [getD_replicate L 1]
  rw [show (0 + 1 + elias_gamma_bits (Int.toNat 1) + Int.toNat 1 * 8 : ℕ) = 10
    from rfl]
  rw [show ((⟨[], [⟨0, 0, 0, 0, 0⟩,
      ⟨0, (skip : ℤ) - 1, 1, 0, 1⟩]⟩ : Allocator).assign_new 0 10 (skip : ℤ) 0 1) =
    ((⟨[], [⟨0, 0, 0, 0, 0⟩, ⟨0, (skip : ℤ) - 1, 1, 0, 2⟩,
      ⟨10, (skip : ℤ), 0, 1, 1⟩]⟩ : Allocator), 2) from rfl]
  dsimp only
  rw [recordInv_eq_of_check (by
    unfold checkArenaInv
    rw [Bool.and_eq_true]
    exact ⟨rfl, by
      rw [List.all_append, List.all_append,
        all_set_of_all (all_replicate_zero _ _ rfl) 1 2 rfl,
        all_set_of_all (all_replicate_zero _ _ rfl) 1 1 rfl,
        all_replicate_zero _ _ rfl]
      rfl⟩) rfl]
  dsimp only
  rw [getD_set_self0 (List.replicate L 0) 1 2 (by rw [List.length_replicate]; omega)]
  unfold updateOptimal
  rw [getD_replicate len skip]
  rw [if_pos (Or.inl rfl)]
  dsimp only
  rw [show ((⟨[], [⟨0, 0, 0, 0, 0⟩, ⟨0, (skip : ℤ) - 1, 1, 0, 2⟩,
      ⟨10, (skip : ℤ), 0, 1, 1⟩]⟩ : Allocator).assign 0 2) =
    ((⟨[], [⟨0, 0, 0, 0, 0⟩, ⟨0, (skip : ℤ) - 1, 1, 0, 2⟩,
      ⟨10, (skip : ℤ), 0, 1, 2⟩]⟩ : Allocator), 2) from rfl]
  dsimp only
  rw [recordInv_eq_of_check (by
    unfold checkArenaInv
    rw [Bool.and_eq_true]
    exact ⟨rfl, by
      rw [List.all_append, List.all_append,
        all_set_of_all (all_replicate_zero _ _ rfl) 1 2 rfl,
        all_set_of_all (all_replicate_zero _ _ rfl) 1 1 rfl,
        all_set_of_all (all_replicate_zero _ _ rfl) skip 2 rfl]
      rfl⟩) rfl]

theorem getD_set_ne0 (l : List ℕ) {i j : ℕ} (v : ℕ) (h : i ≠ j) :
    (l.set i v).getD j 0 = l.getD j 0 :=
  getD_set_ne l v h

theorem foldOffsets_noop (input : List ℕ) (skip : ℕ) (l : List ℕ)
    (s : OptState) (b : ℕ)
    (hlm : ∀ o ∈ l, s.last_match.getD o 0 = 0)
    (hml : ∀ o ∈ l, s.match_length.set o 0 = s.match_length) :
    l.foldl (processOffset input skip skip) (s, b) = (s, b) := by
  induction l with
  | nil => rfl
  | cons o rest ih =>
    rw [List.foldl_cons]
    have hstep : processOffset input skip skip (s, b) o = (s, b) := by
      unfold processOffset
      rw [if_neg (fun hcon => hcon.2.1 rfl)]
      unfold processOffsetNoMatch
      dsimp only
      rw [hml o (List.mem_cons_self _ _)]
      unfold copyLiterals
      dsimp only
      rw [if_neg (not_not_intro (hlm o (List.mem_cons_self _ _)))]
    rw [hstep]
    exact ih (fun x hx => hlm x (List.mem_cons_of_mem _ hx))
      (fun x hx => hml x (List.mem_cons_of_mem _ hx))

theorem fold_skip_last (input : List ℕ) (T : List (ℕ × ℕ)) (BL : List ℕ) :
    (List.range' 1 (offset_ceiling (input.length - 1) MAX_OFFSET_ZX0)).foldl
      (processOffset input (input.length - 1) (input.length - 1))
      ({ alloc := ⟨[], [⟨0, 0, 0, 0, 0⟩,
           ⟨0, ((input.length - 1 : ℕ) : ℤ) - 1, 1, 0, 1⟩]⟩,
         last_literal := List.replicate
           (offset_ceiling (input.length - 1) MAX_OFFSET_ZX0 + 1) 0,
         last_match := (List.replicate
           (offset_ceiling (input.length - 1) MAX_OFFSET_ZX0 + 1) (0 : ℕ)).set 1 1,
         optimal := List.replicate input.length 0,
         match_length := List.replicate
           (offset_ceiling (input.length - 1) MAX_OFFSET_ZX0 + 1) 0,
         best_length := BL, trace := T, arenaInvOk := true }, 2) =
      ({ alloc := ⟨[], [⟨0, 0, 0, 0, 0⟩,
           ⟨0, ((input.length - 1 : ℕ) : ℤ) - 1, 1, 0, 2⟩,
           ⟨10, ((input.length - 1 : ℕ) : ℤ), 0, 1, 2⟩]⟩,
         last_literal := (List.replicate
           (offset_ceiling (input.length - 1) MAX_OFFSET_ZX0 + 1) (0 : ℕ)).set 1 2,
         last_match := (List.replicate
           (offset_ceiling (input.length - 1) MAX_OFFSET_ZX0 + 1) (0 : ℕ)).set 1 1,
         optimal := (List.replicate input.length (0 : ℕ)).set (input.length - 1) 2,
         match_length := List.replicate
           (offset_ceiling (input.length - 1) MAX_OFFSET_ZX0 + 1) 0,
         best_length := BL, trace := T, arenaInvOk := true }, 2) := by
  obtain ⟨M', hM'⟩ :
      ∃ M', offset_ceiling (input.length - 1) MAX_OFFSET_ZX0 = M' + 1 :=
    ⟨offset_ceiling (input.length - 1) MAX_OFFSET_ZX0 - 1, by
      have := @offset_ceiling_pos (input.length - 1) MAX_OFFSET_ZX0 (by decide)
      omega⟩
  rw [hM']
  rw [show List.range' 1 (M' + 1) = 1 :: List.range' 2 M' from rfl]
  rw [List.foldl_cons]
  rw [processOffset_one_skip input (input.length - 1) input.length
    (M' + 1 + 1) (by omega) T BL]
  rw [foldOffsets_noop input (input.length - 1) (List.range' 2 M') _ 2
    (fun o ho => by
      have hmem := List.mem_range'_1.mp ho
      rw [getD_set_ne0 _ _ (by omega : (1 : ℕ) ≠ o), getD_replicate])
    (fun o _ => set_zero_replicate _ _)]

theorem optimize_skip_last (input : List ℕ) (hlen : 1 ≤ input.length) :
    optimize input (input.length - 1) MAX_OFFSET_ZX0 =
      some
        ({ alloc := ⟨[], [⟨0, 0, 0, 0, 0⟩,
             ⟨0, ((input.length - 1 : ℕ) : ℤ) - 1, 1, 0, 2⟩,
             ⟨10, ((input.length - 1 : ℕ) : ℤ), 0, 1, 2⟩]⟩,
           last_literal := (List.replicate
             (offset_ceiling (input.length - 1) MAX_OFFSET_ZX0 + 1) (0 : ℕ)).set 1 2,
           last_match := (List.replicate
             (offset_ceiling (input.length - 1) MAX_OFFSET_ZX0 + 1) (0 : ℕ)).set 1 1,
           optimal := (List.replicate input.length (0 : ℕ)).set (input.length - 1) 2,
           match_length := List.replicate
             (offset_ceiling (input.length - 1) MAX_OFFSET_ZX0 + 1) 0,
           best_length := if input.length > 2
             then (List.replicate input.length (0 : ℕ)).set 2 2
             else List.replicate input.length 0,
           trace := if (input.length - 1) % 128 = 0
             then [(input.length - 1, 1)] else [],
           arenaInvOk := true }, 2) := by
  have hsk : input.length - (input.length - 1) = 1 := by omega
  unfold optimize
  rw [if_neg (by omega : ¬input.length = 0)]
  dsimp only
  rw [hsk]
  rw [show List.range' (input.length - 1) 1 = [input.length - 1] from rfl]
  simp only [optLoop]
  rw [optInit_skip_last]
  unfold outerStep
  dsimp only
  rw [hsk]
  by_cases hc : (input.length - 1) % 128 = 0
  · simp only [if_pos hc]
    rw [List.nil_append]
    rw [fold_skip_last input _ _]
    dsimp only
    rw [get?_set_self _ _ _ (by rw [List.length_replicate]; omega)]
    rfl
  · simp only [if_neg hc]
    rw [fold_skip_last input _ _]
    dsimp only
    rw [get?_set_self _ _ _ (by rw [List.length_replicate]; omega)]
    rfl

theorem buildChain_two (len : ℕ) (i1 i2 : ℤ) :
    buildChain ⟨[], [⟨0, 0, 0, 0, 0⟩, ⟨0, i1, 1, 0, 2⟩, ⟨10, i2, 0, 1, 2⟩]⟩
      (len + 2) 2 =
    some [⟨10, i2, 0⟩, ⟨0, i1, 1⟩] := by
  cases len with
  | zero => rfl
  | succ n => rfl

theorem get?_eq_some_getD (l : List ℕ) (i : ℕ) (h : i < l.length) :
    l.get? i = some (l.getD i 0) := by
  induction l generalizing i with
  | nil => simp at h
  | cons a t ih =>
    cases i with
    | zero => rfl
    | succ i => exact ih i (by simpa using h)

theorem literalCopy_one (input : List ℕ) (c : Context) (delta b : ℕ)
    (hb : input.get? c.input_index = some b) :
    literalCopy input 1 (c, delta) =
      (write_byte c b).bind fun c2 => some (read_bytes c2 1 delta) := by
  show (match input.get? c.input_index with
    | none => none
    | some byte =>
      match write_byte c byte with
      | none => none
      | some c2 => literalCopy input 0 (read_bytes c2 1 delta)) = _
  rw [hb]
  show (match write_byte c b with
    | none => none
    | some c2 => literalCopy input 0 (read_bytes c2 1 delta)) =
    (write_byte c b).bind fun c2 => some (read_bytes c2 1 delta)
  cases write_byte c b with
  | none => rfl
  | some c2 => rfl

/-- `igStart` at the end-marker value 256: the head loop of
`write_interlaced_elias_gamma` doubles `i` from 2 until it exceeds 256. -/
theorem igStart_256 : igStart 256 = 512 := rfl

theorem igEmit_last (bw inv : Bool) (v fuel fuel' i : ℕ) (c : Context)
    (hf : fuel = fuel' + 1) (hi : i >>> 1 = 0) :
    igEmit bw inv v fuel i c = some c := by
  subst hf
  simp only [igEmit]
  rw [hi, if_pos rfl]

theorem igEmit_step (bw inv : Bool) (v fuel fuel' i i' b1 b2 : ℕ) (c c1 c2 : Context)
    (hf : fuel = fuel' + 1) (hi : i >>> 1 = i') (hne : ¬ i' = 0)
    (hb1 : (if bw then (1 : ℕ) else 0) = b1)
    (hb2 : (if inv then (if v &&& i' ≠ 0 then (0 : ℕ) else 1)
            else (if v &&& i' ≠ 0 then (1 : ℕ) else 0)) = b2)
    (h1 : write_bit c b1 = some c1)
    (h2 : write_bit c1 b2 = some c2) :
    igEmit bw inv v fuel i c = igEmit bw inv v fuel' i' c2 := by
  subst hf
  simp only [igEmit]
  rw [hi, if_neg hne, hb1, hb2, h1]
  show (match write_bit c1 b2 with
    | none => none
    | some c => igEmit bw inv v fuel' i' c) = igEmit bw inv v fuel' i' c2
  rw [h2]

/-- Each `write_bit` call of the Elias-gamma emission of 256 in `compress_two`,
with `skip` and `b` symbolic (they are never inspected by the bit writer). -/
theorem wbG1 (skip b : ℕ) : write_bit
      { backtrack := false, bit_mask := 32, bit_index := 0, input_index := skip + 1, output := [192, b, 0, 0], output_index := 2, diff := 2, bitsLog := [0, 1, 1] } 0 =
    some { backtrack := false, bit_mask := 16, bit_index := 0, input_index := skip + 1, output := [192, b, 0, 0], output_index := 2, diff := 2, bitsLog := [0, 1, 1, 0] } := by
  simp only [write_bit, write_byte, List.getD_cons_zero, List.getD_cons_succ,
      List.set_cons_zero, List.set_cons_succ, List.length_cons, List.length_nil,
      List.cons_append, List.nil_append]
  norm_num [(show (128 ||| 64 : ℕ) = 192 from rfl), (show (192 ||| 16 : ℕ) = 208 from rfl), (show (208 ||| 4 : ℕ) = 212 from rfl), (show (212 ||| 1 : ℕ) = 213 from rfl), (show (0 ||| 64 : ℕ) = 64 from rfl), (show (64 ||| 16 : ℕ) = 80 from rfl), (show (80 ||| 4 : ℕ) = 84 from rfl), (show (84 ||| 1 : ℕ) = 85 from rfl), (show (64 ||| 32 : ℕ) = 96 from rfl), (show (0 ||| 128 : ℕ) = 128 from rfl), (show (0 ||| 32 : ℕ) = 32 from rfl), (show (64 >>> 1 : ℕ) = 32 from rfl), (show (32 >>> 1 : ℕ) = 16 from rfl), (show (16 >>> 1 : ℕ) = 8 from rfl), (show (8 >>> 1 : ℕ) = 4 from rfl), (show (4 >>> 1 : ℕ) = 2 from rfl), (show (2 >>> 1 : ℕ) = 1 from rfl), (show (1 >>> 1 : ℕ) = 0 from rfl), (show (128 >>> 1 : ℕ) = 64 from rfl)]

theorem wbG2 (skip b : ℕ) : write_bit
      { backtrack := false, bit_mask := 16, bit_index := 0, input_index := skip + 1, output := [192, b, 0, 0], output_index := 2, diff := 2, bitsLog := [0, 1, 1, 0] } 1 =
    some { backtrack := false, bit_mask := 8, bit_index := 0, input_index := skip + 1, output := [208, b, 0, 0], output_index := 2, diff := 2, bitsLog := [0, 1, 1, 0, 1] } := by
  simp only [write_bit, write_byte, List.getD_cons_zero, List.getD_cons_succ,
      List.set_cons_zero, List.set_cons_succ, List.length_cons, List.length_nil,
      List.cons_append, List.nil_append]
  norm_num [(show (128 ||| 64 : ℕ) = 192 from rfl), (show (192 ||| 16 : ℕ) = 208 from rfl), (show (208 ||| 4 : ℕ) = 212 from rfl), (show (212 ||| 1 : ℕ) = 213 from rfl), (show (0 ||| 64 : ℕ) = 64 from rfl), (show (64 ||| 16 : ℕ) = 80 from rfl), (show (80 ||| 4 : ℕ) = 84 from rfl), (show (84 ||| 1 : ℕ) = 85 from rfl), (show (64 ||| 32 : ℕ) = 96 from rfl), (show (0 ||| 128 : ℕ) = 128 from rfl), (show (0 ||| 32 : ℕ) = 32 from rfl), (show (64 >>> 1 : ℕ) = 32 from rfl), (show (32 >>> 1 : ℕ) = 16 from rfl), (show (16 >>> 1 : ℕ) = 8 from rfl), (show (8 >>> 1 : ℕ) = 4 from rfl), (show (4 >>> 1 : ℕ) = 2 from rfl), (show (2 >>> 1 : ℕ) = 1 from rfl), (show (1 >>> 1 : ℕ) = 0 from rfl), (show (128 >>> 1 : ℕ) = 64 from rfl)]

theorem wbG3 (skip b : ℕ) : write_bit
      { backtrack := false, bit_mask := 8, bit_index := 0, input_index := skip + 1, output := [208, b, 0, 0], output_index := 2, diff := 2, bitsLog := [0, 1, 1, 0, 1] } 0 =
    some { backtrack := false, bit_mask := 4, bit_index := 0, input_index := skip + 1, output := [208, b, 0, 0], output_index := 2, diff := 2, bitsLog := [0, 1, 1, 0, 1, 0] } := by
  simp only [write_bit, write_byte, List.getD_cons_zero, List.getD_cons_succ,
      List.set_cons_zero, List.set_cons_succ, List.length_cons, List.length_nil,
      List.cons_append, List.nil_append]
  norm_num [(show (128 ||| 64 : ℕ) = 192 from rfl), (show (192 ||| 16 : ℕ) = 208 from rfl), (show (208 ||| 4 : ℕ) = 212 from rfl), (show (212 ||| 1 : ℕ) = 213 from rfl), (show (0 ||| 64 : ℕ) = 64 from rfl), (show (64 ||| 16 : ℕ) = 80 from rfl), (show (80 ||| 4 : ℕ) = 84 from rfl), (show (84 ||| 1 : ℕ) = 85 from rfl), (show (64 ||| 32 : ℕ) = 96 from rfl), (show (0 ||| 128 : ℕ) = 128 from rfl), (show (0 ||| 32 : ℕ) = 32 from rfl), (show (64 >>> 1 : ℕ) = 32 from rfl), (show (32 >>> 1 : ℕ) = 16 from rfl), (show (16 >>> 1 : ℕ) = 8 from rfl), (show (8 >>> 1 : ℕ) = 4 from rfl), (show (4 >>> 1 : ℕ) = 2 from rfl), (show (2 >>> 1 : ℕ) = 1 from rfl), (show (1 >>> 1 : ℕ) = 0 from rfl), (show (128 >>> 1 : ℕ) = 64 from rfl)]

theorem wbG4 (skip b : ℕ) : write_bit
      { backtrack := false, bit_mask := 4, bit_index := 0, input_index := skip + 1, output := [208, b, 0, 0], output_index := 2, diff := 2, bitsLog := [0, 1, 1, 0, 1, 0] } 1 =
    some { backtrack := false, bit_mask := 2, bit_index := 0, input_index := skip + 1, output := [212, b, 0, 0], output_index := 2, diff := 2, bitsLog := [0, 1, 1, 0, 1, 0, 1] } := by
  simp only [write_bit, write_byte, List.getD_cons_zero, List.getD_cons_succ,
      List.set_cons_zero, List.set_cons_succ, List.length_cons, List.length_nil,
      List.cons_append, List.nil_append]
  norm_num [(show (128 ||| 64 : ℕ) = 192 from rfl), (show (192 ||| 16 : ℕ) = 208 from rfl), (show (208 ||| 4 : ℕ) = 212 from rfl), (show (212 ||| 1 : ℕ) = 213 from rfl), (show (0 ||| 64 : ℕ) = 64 from rfl), (show (64 ||| 16 : ℕ) = 80 from rfl), (show (80 ||| 4 : ℕ) = 84 from rfl), (show (84 ||| 1 : ℕ) = 85 from rfl), (show (64 ||| 32 : ℕ) = 96 from rfl), (show (0 ||| 128 : ℕ) = 128 from rfl), (show (0 ||| 32 : ℕ) = 32 from rfl), (show (64 >>> 1 : ℕ) = 32 from rfl), (show (32 >>> 1 : ℕ) = 16 from rfl), (show (16 >>> 1 : ℕ) = 8 from rfl), (show (8 >>> 1 : ℕ) = 4 from rfl), (show (4 >>> 1 : ℕ) = 2 from rfl), (show (2 >>> 1 : ℕ) = 1 from rfl), (show (1 >>> 1 : ℕ) = 0 from rfl), (show (128 >>> 1 : ℕ) = 64 from rfl)]

theorem wbG5 (skip b : ℕ) : write_bit
      { backtrack := false, bit_mask := 2, bit_index := 0, input_index := skip + 1, output := [212, b, 0, 0], output_index := 2, diff := 2, bitsLog := [0, 1, 1, 0, 1, 0, 1] } 0 =
    some { backtrack := false, bit_mask := 1, bit_index := 0, input_index := skip + 1, output := [212, b, 0, 0], output_index := 2, diff := 2, bitsLog := [0, 1, 1, 0, 1, 0, 1, 0] } := by
  simp only [write_bit, write_byte, List.getD_cons_zero, List.getD_cons_succ,
      List.set_cons_zero, List.set_cons_succ, List.length_cons, List.length_nil,
      List.cons_append, List.nil_append]
  norm_num [(show (128 ||| 64 : ℕ) = 192 from rfl), (show (192 ||| 16 : ℕ) = 208 from rfl), (show (208 ||| 4 : ℕ) = 212 from rfl), (show (212 ||| 1 : ℕ) = 213 from rfl), (show (0 ||| 64 : ℕ) = 64 from rfl), (show (64 ||| 16 : ℕ) = 80 from rfl), (show (80 ||| 4 : ℕ) = 84 from rfl), (show (84 ||| 1 : ℕ) = 85 from rfl), (show (64 ||| 32 : ℕ) = 96 from rfl), (show (0 ||| 128 : ℕ) = 128 from rfl), (show (0 ||| 32 : ℕ) = 32 from rfl), (show (64 >>> 1 : ℕ) = 32 from rfl), (show (32 >>> 1 : ℕ) = 16 from rfl), (show (16 >>> 1 : ℕ) = 8 from rfl), (show (8 >>> 1 : ℕ) = 4 from rfl), (show (4 >>> 1 : ℕ) = 2 from rfl), (show (2 >>> 1 : ℕ) = 1 from rfl), (show (1 >>> 1 : ℕ) = 0 from rfl), (show (128 >>> 1 : ℕ) = 64 from rfl)]

theorem wbG6 (skip b : ℕ) : write_bit
      { backtrack := false, bit_mask := 1, bit_index := 0, input_index := skip + 1, output := [212, b, 0, 0], output_index := 2, diff := 2, bitsLog := [0, 1, 1, 0, 1, 0, 1, 0] } 1 =
    some { backtrack := false, bit_mask := 0, bit_index := 0, input_index := skip + 1, output := [213, b, 0, 0], output_index := 2, diff := 2, bitsLog := [0, 1, 1, 0, 1, 0, 1, 0, 1] } := by
  simp only [write_bit, write_byte, List.getD_cons_zero, List.getD_cons_succ,
      List.set_cons_zero, List.set_cons_succ, List.length_cons, List.length_nil,
      List.cons_append, List.nil_append]
  norm_num [(show (128 ||| 64 : ℕ) = 192 from rfl), (show (192 ||| 16 : ℕ) = 208 from rfl), (show (208 ||| 4 : ℕ) = 212 from rfl), (show (212 ||| 1 : ℕ) = 213 from rfl), (show (0 ||| 64 : ℕ) = 64 from rfl), (show (64 ||| 16 : ℕ) = 80 from rfl), (show (80 ||| 4 : ℕ) = 84 from rfl), (show (84 ||| 1 : ℕ) = 85 from rfl), (show (64 ||| 32 : ℕ) = 96 from rfl), (show (0 ||| 128 : ℕ) = 128 from rfl), (show (0 ||| 32 : ℕ) = 32 from rfl), (show (64 >>> 1 : ℕ) = 32 from rfl), (show (32 >>> 1 : ℕ) = 16 from rfl), (show (16 >>> 1 : ℕ) = 8 from rfl), (show (8 >>> 1 : ℕ) = 4 from rfl), (show (4 >>> 1 : ℕ) = 2 from rfl), (show (2 >>> 1 : ℕ) = 1 from rfl), (show (1 >>> 1 : ℕ) = 0 from rfl), (show (128 >>> 1 : ℕ) = 64 from rfl)]

theorem wbG7 (skip b : ℕ) : write_bit
      { backtrack := false, bit_mask := 0, bit_index := 0, input_index := skip + 1, output := [213, b, 0, 0], output_index := 2, diff := 2, bitsLog := [0, 1, 1, 0, 1, 0, 1, 0, 1] } 0 =
    some { backtrack := false, bit_mask := 64, bit_index := 2, input_index := skip + 1, output := [213, b, 0, 0], output_index := 3, diff := 1, bitsLog := [0, 1, 1, 0, 1, 0, 1, 0, 1, 0] } := by
  simp only [write_bit, write_byte, List.getD_cons_zero, List.getD_cons_succ,
      List.set_cons_zero, List.set_cons_succ, List.length_cons, List.length_nil,
      List.cons_append, List.nil_append]
  norm_num [(show (128 ||| 64 : ℕ) = 192 from rfl), (show (192 ||| 16 : ℕ) = 208 from rfl), (show (208 ||| 4 : ℕ) = 212 from rfl), (show (212 ||| 1 : ℕ) = 213 from rfl), (show (0 ||| 64 : ℕ) = 64 from rfl), (show (64 ||| 16 : ℕ) = 80 from rfl), (show (80 ||| 4 : ℕ) = 84 from rfl), (show (84 ||| 1 : ℕ) = 85 from rfl), (show (64 ||| 32 : ℕ) = 96 from rfl), (show (0 ||| 128 : ℕ) = 128 from rfl), (show (0 ||| 32 : ℕ) = 32 from rfl), (show (64 >>> 1 : ℕ) = 32 from rfl), (show (32 >>> 1 : ℕ) = 16 from rfl), (show (16 >>> 1 : ℕ) = 8 from rfl), (show (8 >>> 1 : ℕ) = 4 from rfl), (show (4 >>> 1 : ℕ) = 2 from rfl), (show (2 >>> 1 : ℕ) = 1 from rfl), (show (1 >>> 1 : ℕ) = 0 from rfl), (show (128 >>> 1 : ℕ) = 64 from rfl)]

theorem wbG8 (skip b : ℕ) : write_bit
      { backtrack := false, bit_mask := 64, bit_index := 2, input_index := skip + 1, output := [213, b, 0, 0], output_index := 3, diff := 1, bitsLog := [0, 1, 1, 0, 1, 0, 1, 0, 1, 0] } 1 =
    some { backtrack := false, bit_mask := 32, bit_index := 2, input_index := skip + 1, output := [213, b, 64, 0], output_index := 3, diff := 1, bitsLog := [0, 1, 1, 0, 1, 0, 1, 0, 1, 0, 1] } := by
  simp only [write_bit, write_byte, List.getD_cons_zero, List.getD_cons_succ,
      List.set_cons_zero, List.set_cons_succ, List.length_cons, List.length_nil,
      List.cons_append, List.nil_append]
  norm_num [(show (128 ||| 64 : ℕ) = 192 from rfl), (show (192 ||| 16 : ℕ) = 208 from rfl), (show (208 ||| 4 : ℕ) = 212 from rfl), (show (212 ||| 1 : ℕ) = 213 from rfl), (show (0 ||| 64 : ℕ) = 64 from rfl), (show (64 ||| 16 : ℕ) = 80 from rfl), (show (80 ||| 4 : ℕ) = 84 from rfl), (show (84 ||| 1 : ℕ) = 85 from rfl), (show (64 ||| 32 : ℕ) = 96 from rfl), (show (0 ||| 128 : ℕ) = 128 from rfl), (show (0 ||| 32 : ℕ) = 32 from rfl), (show (64 >>> 1 : ℕ) = 32 from rfl), (show (32 >>> 1 : ℕ) = 16 from rfl), (show (16 >>> 1 : ℕ) = 8 from rfl), (show (8 >>> 1 : ℕ) = 4 from rfl), (show (4 >>> 1 : ℕ) = 2 from rfl), (show (2 >>> 1 : ℕ) = 1 from rfl), (show (1 >>> 1 : ℕ) = 0 from rfl), (show (128 >>> 1 : ℕ) = 64 from rfl)]

theorem wbG9 (skip b : ℕ) : write_bit
      { backtrack := false, bit_mask := 32, bit_index := 2, input_index := skip + 1, output := [213, b, 64, 0], output_index := 3, diff := 1, bitsLog := [0, 1, 1, 0, 1, 0, 1, 0, 1, 0, 1] } 0 =
    some { backtrack := false, bit_mask := 16, bit_index := 2, input_index := skip + 1, output := [213, b, 64, 0], output_index := 3, diff := 1, bitsLog := [0, 1, 1, 0, 1, 0, 1, 0, 1, 0, 1, 0] } := by
  simp only [write_bit, write_byte, List.getD_cons_zero, List.getD_cons_succ,
      List.set_cons_zero, List.set_cons_succ, List.length_cons, List.length_nil,
      List.cons_append, List.nil_append]
  norm_num [(show (128 ||| 64 : ℕ) = 192 from rfl), (show (192 ||| 16 : ℕ) = 208 from rfl), (show (208 ||| 4 : ℕ) = 212 from rfl), (show (212 ||| 1 : ℕ) = 213 from rfl), (show (0 ||| 64 : ℕ) = 64 from rfl), (show (64 ||| 16 : ℕ) = 80 from rfl), (show (80 ||| 4 : ℕ) = 84 from rfl), (show (84 ||| 1 : ℕ) = 85 from rfl), (show (64 ||| 32 : ℕ) = 96 from rfl), (show (0 ||| 128 : ℕ) = 128 from rfl), (show (0 ||| 32 : ℕ) = 32 from rfl), (show (64 >>> 1 : ℕ) = 32 from rfl), (show (32 >>> 1 : ℕ) = 16 from rfl), (show (16 >>> 1 : ℕ) = 8 from rfl), (show (8 >>> 1 : ℕ) = 4 from rfl), (show (4 >>> 1 : ℕ) = 2 from rfl), (show (2 >>> 1 : ℕ) = 1 from rfl), (show (1 >>> 1 : ℕ) = 0 from rfl), (show (128 >>> 1 : ℕ) = 64 from rfl)]

theorem wbG10 (skip b : ℕ) : write_bit
      { backtrack := false, bit_mask := 16, bit_index := 2, input_index := skip + 1, output := [213, b, 64, 0], output_index := 3, diff := 1, bitsLog := [0, 1, 1, 0, 1, 0, 1, 0, 1, 0, 1, 0] } 1 =
    some { backtrack := false, bit_mask := 8, bit_index := 2, input_index := skip + 1, output := [213, b, 80, 0], output_index := 3, diff := 1, bitsLog := [0, 1, 1, 0, 1, 0, 1, 0, 1, 0, 1, 0, 1] } := by
  simp only [write_bit, write_byte, List.getD_cons_zero, List.getD_cons_succ,
      List.set_cons_zero, List.set_cons_succ, List.length_cons, List.length_nil,
      List.cons_append, List.nil_append]
  norm_num [(show (128 ||| 64 : ℕ) = 192 from rfl), (show (192 ||| 16 : ℕ) = 208 from rfl), (show (208 ||| 4 : ℕ) = 212 from rfl), (show (212 ||| 1 : ℕ) = 213 from rfl), (show (0 ||| 64 : ℕ) = 64 from rfl), (show (64 ||| 16 : ℕ) = 80 from rfl), (show (80 ||| 4 : ℕ) = 84 from rfl), (show (84 ||| 1 : ℕ) = 85 from rfl), (show (64 ||| 32 : ℕ) = 96 from rfl), (show (0 ||| 128 : ℕ) = 128 from rfl), (show (0 ||| 32 : ℕ) = 32 from rfl), (show (64 >>> 1 : ℕ) = 32 from rfl), (show (32 >>> 1 : ℕ) = 16 from rfl), (show (16 >>> 1 : ℕ) = 8 from rfl), (show (8 >>> 1 : ℕ) = 4 from rfl), (show (4 >>> 1 : ℕ) = 2 from rfl), (show (2 >>> 1 : ℕ) = 1 from rfl), (show (1 >>> 1 : ℕ) = 0 from rfl), (show (128 >>> 1 : ℕ) = 64 from rfl)]

theorem wbG11 (skip b : ℕ) : write_bit
      { backtrack := false, bit_mask := 8, bit_index := 2, input_index := skip + 1, output := [213, b, 80, 0], output_index := 3, diff := 1, bitsLog := [0, 1, 1, 0, 1, 0, 1, 0, 1, 0, 1, 0, 1] } 0 =
    some { backtrack := false, bit_mask := 4, bit_index := 2, input_index := skip + 1, output := [213, b, 80, 0], output_index := 3, diff := 1, bitsLog := [0, 1, 1, 0, 1, 0, 1, 0, 1, 0, 1, 0, 1, 0] } := by
  simp only [write_bit, write_byte, List.getD_cons_zero, List.getD_cons_succ,
      List.set_cons_zero, List.set_cons_succ, List.length_cons, List.length_nil,
      List.cons_append, List.nil_append]
  norm_num [(show (128 ||| 64 : ℕ) = 192 from rfl), (show (192 ||| 16 : ℕ) = 208 from rfl), (show (208 ||| 4 : ℕ) = 212 from rfl), (show (212 ||| 1 : ℕ) = 213 from rfl), (show (0 ||| 64 : ℕ) = 64 from rfl), (show (64 ||| 16 : ℕ) = 80 from rfl), (show (80 ||| 4 : ℕ) = 84 from rfl), (show (84 ||| 1 : ℕ) = 85 from rfl), (show (64 ||| 32 : ℕ) = 96 from rfl), (show (0 ||| 128 : ℕ) = 128 from rfl), (show (0 ||| 32 : ℕ) = 32 from rfl), (show (64 >>> 1 : ℕ) = 32 from rfl), (show (32 >>> 1 : ℕ) = 16 from rfl), (show (16 >>> 1 : ℕ) = 8 from rfl), (show (8 >>> 1 : ℕ) = 4 from rfl), (show (4 >>> 1 : ℕ) = 2 from rfl), (show (2 >>> 1 : ℕ) = 1 from rfl), (show (1 >>> 1 : ℕ) = 0 from rfl), (show (128 >>> 1 : ℕ) = 64 from rfl)]

theorem wbG12 (skip b : ℕ) : write_bit
      { backtrack := false, bit_mask := 4, bit_index := 2, input_index := skip + 1, output := [213, b, 80, 0], output_index := 3, diff := 1, bitsLog := [0, 1, 1, 0, 1, 0, 1, 0, 1, 0, 1, 0, 1, 0] } 1 =
    some { backtrack := false, bit_mask := 2, bit_index := 2, input_index := skip + 1, output := [213, b, 84, 0], output_index := 3, diff := 1, bitsLog := [0, 1, 1, 0, 1, 0, 1, 0, 1, 0, 1, 0, 1, 0, 1] } := by
  simp only [write_bit, write_byte, List.getD_cons_zero, List.getD_cons_succ,
      List.set_cons_zero, List.set_cons_succ, List.length_cons, List.length_nil,
      List.cons_append, List.nil_append]
  norm_num [(show (128 ||| 64 : ℕ) = 192 from rfl), (show (192 ||| 16 : ℕ) = 208 from rfl), (show (208 ||| 4 : ℕ) = 212 from rfl), (show (212 ||| 1 : ℕ) = 213 from rfl), (show (0 ||| 64 : ℕ) = 64 from rfl), (show (64 ||| 16 : ℕ) = 80 from rfl), (show (80 ||| 4 : ℕ) = 84 from rfl), (show (84 ||| 1 : ℕ) = 85 from rfl), (show (64 ||| 32 : ℕ) = 96 from rfl), (show (0 ||| 128 : ℕ) = 128 from rfl), (show (0 ||| 32 : ℕ) = 32 from rfl), (show (64 >>> 1 : ℕ) = 32 from rfl), (show (32 >>> 1 : ℕ) = 16 from rfl), (show (16 >>> 1 : ℕ) = 8 from rfl), (show (8 >>> 1 : ℕ) = 4 from rfl), (show (4 >>> 1 : ℕ) = 2 from rfl), (show (2 >>> 1 : ℕ) = 1 from rfl), (show (1 >>> 1 : ℕ) = 0 from rfl), (show (128 >>> 1 : ℕ) = 64 from rfl)]

theorem wbG13 (skip b : ℕ) : write_bit
      { backtrack := false, bit_mask := 2, bit_index := 2, input_index := skip + 1, output := [213, b, 84, 0], output_index := 3, diff := 1, bitsLog := [0, 1, 1, 0, 1, 0, 1, 0, 1, 0, 1, 0, 1, 0, 1] } 0 =
    some { backtrack := false, bit_mask := 1, bit_index := 2, input_index := skip + 1, output := [213, b, 84, 0], output_index := 3, diff := 1, bitsLog := [0, 1, 1, 0, 1, 0, 1, 0, 1, 0, 1, 0, 1, 0, 1, 0] } := by
  simp only [write_bit, write_byte, List.getD_cons_zero, List.getD_cons_succ,
      List.set_cons_zero, List.set_cons_succ, List.length_cons, List.length_nil,
      List.cons_append, List.nil_append]
  norm_num [(show (128 ||| 64 : ℕ) = 192 from rfl), (show (192 ||| 16 : ℕ) = 208 from rfl), (show (208 ||| 4 : ℕ) = 212 from rfl), (show (212 ||| 1 : ℕ) = 213 from rfl), (show (0 ||| 64 : ℕ) = 64 from rfl), (show (64 ||| 16 : ℕ) = 80 from rfl), (show (80 ||| 4 : ℕ) = 84 from rfl), (show (84 ||| 1 : ℕ) = 85 from rfl), (show (64 ||| 32 : ℕ) = 96 from rfl), (show (0 ||| 128 : ℕ) = 128 from rfl), (show (0 ||| 32 : ℕ) = 32 from rfl), (show (64 >>> 1 : ℕ) = 32 from rfl), (show (32 >>> 1 : ℕ) = 16 from rfl), (show (16 >>> 1 : ℕ) = 8 from rfl), (show (8 >>> 1 : ℕ) = 4 from rfl), (show (4 >>> 1 : ℕ) = 2 from rfl), (show (2 >>> 1 : ℕ) = 1 from rfl), (show (1 >>> 1 : ℕ) = 0 from rfl), (show (128 >>> 1 : ℕ) = 64 from rfl)]

theorem wbG14 (skip b : ℕ) : write_bit
      { backtrack := false, bit_mask := 1, bit_index := 2, input_index := skip + 1, output := [213, b, 84, 0], output_index := 3, diff := 1, bitsLog := [0, 1, 1, 0, 1, 0, 1, 0, 1, 0, 1, 0, 1, 0, 1, 0] } 1 =
    some { backtrack := false, bit_mask := 0, bit_index := 2, input_index := skip + 1, output := [213, b, 85, 0], output_index := 3, diff := 1, bitsLog := [0, 1, 1, 0, 1, 0, 1, 0, 1, 0, 1, 0, 1, 0, 1, 0, 1] } := by
  simp only [write_bit, write_byte, List.getD_cons_zero, List.getD_cons_succ,
      List.set_cons_zero, List.set_cons_succ, List.length_cons, List.length_nil,
      List.cons_append, List.nil_append]
  norm_num [(show (128 ||| 64 : ℕ) = 192 from rfl), (show (192 ||| 16 : ℕ) = 208 from rfl), (show (208 ||| 4 : ℕ) = 212 from rfl), (show (212 ||| 1 : ℕ) = 213 from rfl), (show (0 ||| 64 : ℕ) = 64 from rfl), (show (64 ||| 16 : ℕ) = 80 from rfl), (show (80 ||| 4 : ℕ) = 84 from rfl), (show (84 ||| 1 : ℕ) = 85 from rfl), (show (64 ||| 32 : ℕ) = 96 from rfl), (show (0 ||| 128 : ℕ) = 128 from rfl), (show (0 ||| 32 : ℕ) = 32 from rfl), (show (64 >>> 1 : ℕ) = 32 from rfl), (show (32 >>> 1 : ℕ) = 16 from rfl), (show (16 >>> 1 : ℕ) = 8 from rfl), (show (8 >>> 1 : ℕ) = 4 from rfl), (show (4 >>> 1 : ℕ) = 2 from rfl), (show (2 >>> 1 : ℕ) = 1 from rfl), (show (1 >>> 1 : ℕ) = 0 from rfl), (show (128 >>> 1 : ℕ) = 64 from rfl)]

theorem wbG15 (skip b : ℕ) : write_bit
      { backtrack := false, bit_mask := 0, bit_index := 2, input_index := skip + 1, output := [213, b, 85, 0], output_index := 3, diff := 1, bitsLog := [0, 1, 1, 0, 1, 0, 1, 0, 1, 0, 1, 0, 1, 0, 1, 0, 1] } 0 =
    some { backtrack := false, bit_mask := 64, bit_index := 3, input_index := skip + 1, output := [213, b, 85, 0], output_index := 4, diff := 0, bitsLog := [0, 1, 1, 0, 1, 0, 1, 0, 1, 0, 1, 0, 1, 0, 1, 0, 1, 0] } := by
  simp only [write_bit, write_byte, List.getD_cons_zero, List.getD_cons_succ,
      List.set_cons_zero, List.set_cons_succ, List.length_cons, List.length_nil,
      List.cons_append, List.nil_append]
  norm_num [(show (128 ||| 64 : ℕ) = 192 from rfl), (show (192 ||| 16 : ℕ) = 208 from rfl), (show (208 ||| 4 : ℕ) = 212 from rfl), (show (212 ||| 1 : ℕ) = 213 from rfl), (show (0 ||| 64 : ℕ) = 64 from rfl), (show (64 ||| 16 : ℕ) = 80 from rfl), (show (80 ||| 4 : ℕ) = 84 from rfl), (show (84 ||| 1 : ℕ) = 85 from rfl), (show (64 ||| 32 : ℕ) = 96 from rfl), (show (0 ||| 128 : ℕ) = 128 from rfl), (show (0 ||| 32 : ℕ) = 32 from rfl), (show (64 >>> 1 : ℕ) = 32 from rfl), (show (32 >>> 1 : ℕ) = 16 from rfl), (show (16 >>> 1 : ℕ) = 8 from rfl), (show (8 >>> 1 : ℕ) = 4 from rfl), (show (4 >>> 1 : ℕ) = 2 from rfl), (show (2 >>> 1 : ℕ) = 1 from rfl), (show (1 >>> 1 : ℕ) = 0 from rfl), (show (128 >>> 1 : ℕ) = 64 from rfl)]

theorem wbG16 (skip b : ℕ) : write_bit
      { backtrack := false, bit_mask := 64, bit_index := 3, input_index := skip + 1, output := [213, b, 85, 0], output_index := 4, diff := 0, bitsLog := [0, 1, 1, 0, 1, 0, 1, 0, 1, 0, 1, 0, 1, 0, 1, 0, 1, 0] } 1 =
    some { backtrack := false, bit_mask := 32, bit_index := 3, input_index := skip + 1, output := [213, b, 85, 64], output_index := 4, diff := 0, bitsLog := [0, 1, 1, 0, 1, 0, 1, 0, 1, 0, 1, 0, 1, 0, 1, 0, 1, 0, 1] } := by
  simp only [write_bit, write_byte, List.getD_cons_zero, List.getD_cons_succ,
      List.set_cons_zero, List.set_cons_succ, List.length_cons, List.length_nil,
      List.cons_append, List.nil_append]
  norm_num [(show (128 ||| 64 : ℕ) = 192 from rfl), (show (192 ||| 16 : ℕ) = 208 from rfl), (show (208 ||| 4 : ℕ) = 212 from rfl), (show (212 ||| 1 : ℕ) = 213 from rfl), (show (0 ||| 64 : ℕ) = 64 from rfl), (show (64 ||| 16 : ℕ) = 80 from rfl), (show (80 ||| 4 : ℕ) = 84 from rfl), (show (84 ||| 1 : ℕ) = 85 from rfl), (show (64 ||| 32 : ℕ) = 96 from rfl), (show (0 ||| 128 : ℕ) = 128 from rfl), (show (0 ||| 32 : ℕ) = 32 from rfl), (show (64 >>> 1 : ℕ) = 32 from rfl), (show (32 >>> 1 : ℕ) = 16 from rfl), (show (16 >>> 1 : ℕ) = 8 from rfl), (show (8 >>> 1 : ℕ) = 4 from rfl), (show (4 >>> 1 : ℕ) = 2 from rfl), (show (2 >>> 1 : ℕ) = 1 from rfl), (show (1 >>> 1 : ℕ) = 0 from rfl), (show (128 >>> 1 : ℕ) = 64 from rfl)]

theorem wbG17 (skip b : ℕ) : write_bit
      { backtrack := false, bit_mask := 32, bit_index := 3, input_index := skip + 1, output := [213, b, 85, 64], output_index := 4, diff := 0, bitsLog := [0, 1, 1, 0, 1, 0, 1, 0, 1, 0, 1, 0, 1, 0, 1, 0, 1, 0, 1] } 1 =
    some { backtrack := false, bit_mask := 16, bit_index := 3, input_index := skip + 1, output := [213, b, 85, 96], output_index := 4, diff := 0, bitsLog := [0, 1, 1, 0, 1, 0, 1, 0, 1, 0, 1, 0, 1, 0, 1, 0, 1, 0, 1, 1] } := by
  simp only [write_bit, write_byte, List.getD_cons_zero, List.getD_cons_succ,
      List.set_cons_zero, List.set_cons_succ, List.length_cons, List.length_nil,
      List.cons_append, List.nil_append]
  norm_num [(show (128 ||| 64 : ℕ) = 192 from rfl), (show (192 ||| 16 : ℕ) = 208 from rfl), (show (208 ||| 4 : ℕ) = 212 from rfl), (show (212 ||| 1 : ℕ) = 213 from rfl), (show (0 ||| 64 : ℕ) = 64 from rfl), (show (64 ||| 16 : ℕ) = 80 from rfl), (show (80 ||| 4 : ℕ) = 84 from rfl), (show (84 ||| 1 : ℕ) = 85 from rfl), (show (64 ||| 32 : ℕ) = 96 from rfl), (show (0 ||| 128 : ℕ) = 128 from rfl), (show (0 ||| 32 : ℕ) = 32 from rfl), (show (64 >>> 1 : ℕ) = 32 from rfl), (show (32 >>> 1 : ℕ) = 16 from rfl), (show (16 >>> 1 : ℕ) = 8 from rfl), (show (8 >>> 1 : ℕ) = 4 from rfl), (show (4 >>> 1 : ℕ) = 2 from rfl), (show (2 >>> 1 : ℕ) = 1 from rfl), (show (1 >>> 1 : ℕ) = 0 from rfl), (show (128 >>> 1 : ℕ) = 64 from rfl)]

theorem wieg256_eq (skip b : ℕ) : write_interlaced_elias_gamma
      { backtrack := false, bit_mask := 32, bit_index := 0, input_index := skip + 1, output := [192, b, 0, 0], output_index := 2, diff := 2, bitsLog := [0, 1, 1] } 256 false true =
    some { backtrack := false, bit_mask := 16, bit_index := 3, input_index := skip + 1, output := [213, b, 85, 96], output_index := 4, diff := 0, bitsLog := [0, 1, 1, 0, 1, 0, 1, 0, 1, 0, 1, 0, 1, 0, 1, 0, 1, 0, 1, 1] } := by
  unfold write_interlaced_elias_gamma
  rw [show igStart 256 = 512 from igStart_256]
  dsimp only
  rw [show (512 : ℕ) >>> 1 = 256 from rfl]
  rw [igEmit_step false true 256 257 256 256 128 0 1
      { backtrack := false, bit_mask := 32, bit_index := 0, input_index := skip + 1, output := [192, b, 0, 0], output_index := 2, diff := 2, bitsLog := [0, 1, 1] }
      { backtrack := false, bit_mask := 16, bit_index := 0, input_index := skip + 1, output := [192, b, 0, 0], output_index := 2, diff := 2, bitsLog := [0, 1, 1, 0] }
      { backtrack := false, bit_mask := 8, bit_index := 0, input_index := skip + 1, output := [208, b, 0, 0], output_index := 2, diff := 2, bitsLog := [0, 1, 1, 0, 1] }
      rfl rfl (by decide) rfl (by decide) (wbG1 skip b) (wbG2 skip b)]
  rw [igEmit_step false true 256 256 255 128 64 0 1
      { backtrack := false, bit_mask := 8, bit_index := 0, input_index := skip + 1, output := [208, b, 0, 0], output_index := 2, diff := 2, bitsLog := [0, 1, 1, 0, 1] }
      { backtrack := false, bit_mask := 4, bit_index := 0, input_index := skip + 1, output := [208, b, 0, 0], output_index := 2, diff := 2, bitsLog := [0, 1, 1, 0, 1, 0] }
      { backtrack := false, bit_mask := 2, bit_index := 0, input_index := skip + 1, output := [212, b, 0, 0], output_index := 2, diff := 2, bitsLog := [0, 1, 1, 0, 1, 0, 1] }
      rfl rfl (by decide) rfl (by decide) (wbG3 skip b) (wbG4 skip b)]
  rw [igEmit_step false true 256 255 254 64 32 0 1
      { backtrack := false, bit_mask := 2, bit_index := 0, input_index := skip + 1, output := [212, b, 0, 0], output_index := 2, diff := 2, bitsLog := [0, 1, 1, 0, 1, 0, 1] }
      { backtrack := false, bit_mask := 1, bit_index := 0, input_index := skip + 1, output := [212, b, 0, 0], output_index := 2, diff := 2, bitsLog := [0, 1, 1, 0, 1, 0, 1, 0] }
      { backtrack := false, bit_mask := 0, bit_index := 0, input_index := skip + 1, output := [213, b, 0, 0], output_index := 2, diff := 2, bitsLog := [0, 1, 1, 0, 1, 0, 1, 0, 1] }
      rfl rfl (by decide) rfl (by decide) (wbG5 skip b) (wbG6 skip b)]
  rw [igEmit_step false true 256 254 253 32 16 0 1
      { backtrack := false, bit_mask := 0, bit_index := 0, input_index := skip + 1, output := [213, b, 0, 0], output_index := 2, diff := 2, bitsLog := [0, 1, 1, 0, 1, 0, 1, 0, 1] }
      { backtrack := false, bit_mask := 64, bit_index := 2, input_index := skip + 1, output := [213, b, 0, 0], output_index := 3, diff := 1, bitsLog := [0, 1, 1, 0, 1, 0, 1, 0, 1, 0] }
      { backtrack := false, bit_mask := 32, bit_index := 2, input_index := skip + 1, output := [213, b, 64, 0], output_index := 3, diff := 1, bitsLog := [0, 1, 1, 0, 1, 0, 1, 0, 1, 0, 1] }
      rfl rfl (by decide) rfl (by decide) (wbG7 skip b) (wbG8 skip b)]
  rw [igEmit_step false true 256 253 252 16 8 0 1
      { backtrack := false, bit_mask := 32, bit_index := 2, input_index := skip + 1, output := [213, b, 64, 0], output_index := 3, diff := 1, bitsLog := [0, 1, 1, 0, 1, 0, 1, 0, 1, 0, 1] }
      { backtrack := false, bit_mask := 16, bit_index := 2, input_index := skip + 1, output := [213, b, 64, 0], output_index := 3, diff := 1, bitsLog := [0, 1, 1, 0, 1, 0, 1, 0, 1, 0, 1, 0] }
      { backtrack := false, bit_mask := 8, bit_index := 2, input_index := skip + 1, output := [213, b, 80, 0], output_index := 3, diff := 1, bitsLog := [0, 1, 1, 0, 1, 0, 1, 0, 1, 0, 1, 0, 1] }
      rfl rfl (by decide) rfl (by decide) (wbG9 skip b) (wbG10 skip b)]
  rw [igEmit_step false true 256 252 251 8 4 0 1
      { backtrack := false, bit_mask := 8, bit_index := 2, input_index := skip + 1, output := [213, b, 80, 0], output_index := 3, diff := 1, bitsLog := [0, 1, 1, 0, 1, 0, 1, 0, 1, 0, 1, 0, 1] }
      { backtrack := false, bit_mask := 4, bit_index := 2, input_index := skip + 1, output := [213, b, 80, 0], output_index := 3, diff := 1, bitsLog := [0, 1, 1, 0, 1, 0, 1, 0, 1, 0, 1, 0, 1, 0] }
      { backtrack := false, bit_mask := 2, bit_index := 2, input_index := skip + 1, output := [213, b, 84, 0], output_index := 3, diff := 1, bitsLog := [0, 1, 1, 0, 1, 0, 1, 0, 1, 0, 1, 0, 1, 0, 1] }
      rfl rfl (by decide) rfl (by decide) (wbG11 skip b) (wbG12 skip b)]
  rw [igEmit_step false true 256 251 250 4 2 0 1
      { backtrack := false, bit_mask := 2, bit_index := 2, input_index := skip + 1, output := [213, b, 84, 0], output_index := 3, diff := 1, bitsLog := [0, 1, 1, 0, 1, 0, 1, 0, 1, 0, 1, 0, 1, 0, 1] }
      { backtrack := false, bit_mask := 1, bit_index := 2, input_index := skip + 1, output := [213, b, 84, 0], output_index := 3, diff := 1, bitsLog := [0, 1, 1, 0, 1, 0, 1, 0, 1, 0, 1, 0, 1, 0, 1, 0] }
      { backtrack := false, bit_mask := 0, bit_index := 2, input_index := skip + 1, output := [213, b, 85, 0], output_index := 3, diff := 1, bitsLog := [0, 1, 1, 0, 1, 0, 1, 0, 1, 0, 1, 0, 1, 0, 1, 0, 1] }
      rfl rfl (by decide) rfl (by decide) (wbG13 skip b) (wbG14 skip b)]
  rw [igEmit_step false true 256 250 249 2 1 0 1
      { backtrack := false, bit_mask := 0, bit_index := 2, input_index := skip + 1, output := [213, b, 85, 0], output_index := 3, diff := 1, bitsLog := [0, 1, 1, 0, 1, 0, 1, 0, 1, 0, 1, 0, 1, 0, 1, 0, 1] }
      { backtrack := false, bit_mask := 64, bit_index := 3, input_index := skip + 1, output := [213, b, 85, 0], output_index := 4, diff := 0, bitsLog := [0, 1, 1, 0, 1, 0, 1, 0, 1, 0, 1, 0, 1, 0, 1, 0, 1, 0] }
      { backtrack := false, bit_mask := 32, bit_index := 3, input_index := skip + 1, output := [213, b, 85, 64], output_index := 4, diff := 0, bitsLog := [0, 1, 1, 0, 1, 0, 1, 0, 1, 0, 1, 0, 1, 0, 1, 0, 1, 0, 1] }
      rfl rfl (by decide) rfl (by decide) (wbG15 skip b) (wbG16 skip b)]
  rw [igEmit_last false true 256 249 248 1
      { backtrack := false, bit_mask := 32, bit_index := 3, input_index := skip + 1, output := [213, b, 85, 64], output_index := 4, diff := 0, bitsLog := [0, 1, 1, 0, 1, 0, 1, 0, 1, 0, 1, 0, 1, 0, 1, 0, 1, 0, 1] }
      rfl rfl]
  show (match (some { backtrack := false, bit_mask := 32, bit_index := 3, input_index := skip + 1, output := [213, b, 85, 64], output_index := 4, diff := 0, bitsLog := [0, 1, 1, 0, 1, 0, 1, 0, 1, 0, 1, 0, 1, 0, 1, 0, 1, 0, 1] } : Option Context) with
    | none => none
    | some c => write_bit c (if !false then 1 else 0)) = _
  rw [show (if !false then (1 : ℕ) else 0) = 1 from rfl]
  show write_bit { backtrack := false, bit_mask := 32, bit_index := 3, input_index := skip + 1, output := [213, b, 85, 64], output_index := 4, diff := 0, bitsLog := [0, 1, 1, 0, 1, 0, 1, 0, 1, 0, 1, 0, 1, 0, 1, 0, 1, 0, 1] } 1 = _
  rw [wbG17 skip b]

theorem compress_two (input : List ℕ) (skip : ℕ) (i1 i2 : ℤ) (b : ℕ)
    (h21 : i2 - i1 = 1)
    (hd : (((10 + 25) / 8 : ℕ) : ℤ) - (input.length : ℤ) + (skip : ℤ) = 3)
    (hb : input.get? skip = some b) :
    compress [⟨10, i2, 0⟩, ⟨0, i1, 1⟩] input skip false true =
    some ([213, b, 85, 96], 2,
      [0, 1, 1, 0, 1, 0, 1, 0, 1, 0, 1, 0, 1, 0, 1, 0, 1, 0, 1, 1]) := by
  unfold compress
  rw [show ([(⟨10, i2, 0⟩ : CBlock), ⟨0, i1, 1⟩] : List CBlock).head? =
    some ⟨10, i2, 0⟩ from rfl]
  rw [Option.some_bind]
  dsimp only
  rw [hd]
  rw [show ([(⟨10, i2, 0⟩ : CBlock), ⟨0, i1, 1⟩] : List CBlock).reverse =
    [⟨0, i1, 1⟩, ⟨10, i2, 0⟩] from rfl]
  dsimp only
  simp only [emitLoop]
  unfold emitToken
  dsimp only
  rw [if_pos rfl]
  rw [h21]
  rw [show Int.toNat 1 = 1 from rfl]
  rw [show write_bit
      { backtrack := true, bit_mask := 0, bit_index := 0, input_index := skip,
        output := List.replicate ((10 + 25) / 8) 0, output_index := 0,
        diff := 3, bitsLog := [] } 0 =
    some { backtrack := false, bit_mask := 0, bit_index := 0,
           input_index := skip, output := List.replicate ((10 + 25) / 8) 0,
           output_index := 0, diff := 3, bitsLog := [0] } from rfl]
  rw [Option.some_bind]
  rw [show write_interlaced_elias_gamma
      { backtrack := false, bit_mask := 0, bit_index := 0,
        input_index := skip, output := List.replicate ((10 + 25) / 8) 0,
        output_index := 0, diff := 3, bitsLog := [0] } 1 false false =
    some { backtrack := false, bit_mask := 64, bit_index := 0,
           input_index := skip, output := [128, 0, 0, 0], output_index := 1,
           diff := 2, bitsLog := [0, 1] } from by
      simp [write_interlaced_elias_gamma, igStart, igStartGo, igEmit,
        write_bit, write_byte]]
  rw [Option.some_bind]
  rw [literalCopy_one input _ 0 b hb]
  rw [show write_byte
      { backtrack := false, bit_mask := 64, bit_index := 0,
        input_index := skip, output := [128, 0, 0, 0], output_index := 1,
        diff := 2, bitsLog := [0, 1] } b =
    some { backtrack := false, bit_mask := 64, bit_index := 0,
           input_index := skip, output := [128, b, 0, 0], output_index := 2,
           diff := 1, bitsLog := [0, 1] } from rfl]
  rw [Option.some_bind]
  rw [show read_bytes
      { backtrack := false, bit_mask := 64, bit_index := 0,
        input_index := skip, output := [128, b, 0, 0], output_index := 2,
        diff := 1, bitsLog := [0, 1] } 1 0 =
    ({ backtrack := false, bit_mask := 64, bit_index := 0,
       input_index := skip + 1, output := [128, b, 0, 0], output_index := 2,
       diff := 2, bitsLog := [0, 1] }, 2) from rfl]
  rw [Option.some_bind]
  dsimp only
  rw [Option.some_bind]
  dsimp only
  rw [show write_bit
      { backtrack := false, bit_mask := 64, bit_index := 0,
        input_index := skip + 1, output := [128, b, 0, 0], output_index := 2,
        diff := 2, bitsLog := [0, 1] } 1 =
    some { backtrack := false, bit_mask := 32, bit_index := 0,
           input_index := skip + 1, output := [192, b, 0, 0], output_index := 2,
           diff := 2, bitsLog := [0, 1, 1] } from by
      simp only [write_bit, write_byte, List.getD_cons_zero, List.getD_cons_succ,
        List.set_cons_zero, List.set_cons_succ, List.length_cons, List.length_nil,
        List.cons_append, List.nil_append]
      norm_num [(show (128 ||| 64 : ℕ) = 192 from rfl),
        (show (64 >>> 1 : ℕ) = 32 from rfl)]]
  rw [Option.some_bind]
  rw [wieg256_eq skip b]
  rw [Option.some_bind]

/-- C3 (amended): compression does **not** crash on any non-empty input whose
effective length is one byte — in particular every single-byte input (there
`skip = 0 = len - 1`) and, more generally, every input compressed with
`skip = len(input) - 1`.  The run succeeds and produces the four-byte stream
`[213, last byte, 85, 96]`: one literal token (indicator bit 0, Elias-Gamma
length 1, the byte) followed by the end marker (indicator bit 1 and the
Elias-Gamma code of 256), as the ghost bit log records.  The **empty** input,
by contrast, panics (see `c3_counterexample_empty`). -/
theorem c3_one_effective_byte (input : List ℕ) (hlen : 1 ≤ input.length) :
    compressorCompress ⟨input.length - 1, false, false, false⟩ input =
      some { output := [213, input.getD (input.length - 1) 0, 85, 96],
             delta := 2,
             trace := if (input.length - 1) % 128 = 0
               then [(input.length - 1, 1)] else [],
             chain := [⟨10, ((input.length - 1 : ℕ) : ℤ), 0⟩,
                       ⟨0, ((input.length - 1 : ℕ) : ℤ) - 1, 1⟩],
             arenaInvOk := true,
             bitsLog := [0, 1, 1, 0, 1, 0, 1, 0, 1, 0, 1, 0, 1, 0, 1, 0, 1, 0, 1, 1] } := by
  unfold compressorCompress
  dsimp only
  rw [if_neg (by decide : ¬false = true)]
  rw [optimize_skip_last input hlen]
  rw [Option.some_bind]
  rw [buildChain_two input.length (((input.length - 1 : ℕ) : ℤ) - 1)
    ((input.length - 1 : ℕ) : ℤ)]
  rw [Option.some_bind]
  dsimp only
  rw [show invertMode false false = true from rfl]
  rw [compress_two input (input.length - 1) (((input.length - 1 : ℕ) : ℤ) - 1)
    ((input.length - 1 : ℕ) : ℤ) (input.getD (input.length - 1) 0)
    (by ring) (by omega)
    (get?_eq_some_getD input (input.length - 1) (by omega))]
  rw [Option.some_bind]

/-- Closed witness for `c3_one_effective_byte` at the single-byte input `[7]`. -/
theorem c3_one_effective_byte_witness :
    1 ≤ ([7] : List ℕ).length ∧
    compressorCompress ⟨([7] : List ℕ).length - 1, false, false, false⟩ [7] =
      some { output := [213, ([7] : List ℕ).getD (([7] : List ℕ).length - 1) 0,
                        85, 96],
             delta := 2,
             trace := if (([7] : List ℕ).length - 1) % 128 = 0
               then [(([7] : List ℕ).length - 1, 1)] else [],
             chain := [⟨10, ((([7] : List ℕ).length - 1 : ℕ) : ℤ), 0⟩,
                       ⟨0, ((([7] : List ℕ).length - 1 : ℕ) : ℤ) - 1, 1⟩],
             arenaInvOk := true,
             bitsLog := [0, 1, 1, 0, 1, 0, 1, 0, 1, 0, 1, 0, 1, 0, 1, 0, 1, 0, 1, 1] } :=
  ⟨by decide, c3_one_effective_byte [7] (by decide)⟩

end ZX0
